import Mathlib

/-!
# Verification of the html-parser-generator core

A shallow embedding, in Lean 4, of the core logic of the
html-parser-generator service:

* the URL-to-pattern classifier (`src/utils/htmlExtractor.ts`:
  `normalizeUrl`, `generateUrlPattern`, `isLikelyEnglishWord`,
  `isLikelyId`),
* the disk entry store (`src/storage/diskParserStorage.ts`:
  `getParserFilePath` sanitization, `set`, `get`, `getAll`) and the
  in-memory store (`src/storage/inMemoryParserStorage.ts`),
* the coalescing cache coordinator (`src/services/parserService.ts`:
  `getParser`, `generateParser`, `performParserGeneration`) as a
  small-step event system over the Node.js event-loop's atomic
  continuation slices.

Strings are modelled as `List Char` internally (JS strings are sequences
of code points for all the operations used here).  The spell-checker
dependency (`SpellChecker.isMisspelled`) is an injected oracle
`miss : List Char → Bool` (`miss w = true` means "w is misspelled"),
matching the spec's injected Dictionary capability.  The WHATWG `URL`
constructor is modelled by `parseUrl`, restricted to the `http`/`https`
ASCII-host URLs this code path feeds it (no IDNA, no dot-segment
normalization); parse failure is `none`, which `generateUrlPattern`
turns into the raw-input fallback exactly as the `try`/`catch` does.
`decodeURIComponent` is modelled with its percent-decoding and strict
UTF-8 validation, returning `none` where JS throws `URIError`.
-/

namespace ParserGen

/-! ## Basic character and list utilities -/

/-- ASCII lower-casing of a single character, as `String.prototype.toLowerCase`
acts on the ASCII letters (the only characters that reach it here). -/
def lowerChar (c : Char) : Char :=
  if c.isUpper then Char.ofNat (c.toNat + 32) else c

/-- ASCII lower-casing of a character list. -/
def lowerList (cs : List Char) : List Char := cs.map lowerChar

/-- Rebuild a `String` from a character list. -/
def chStr (cs : List Char) : String := ⟨cs⟩

/-- `leadsWith pre cs` holds when `pre` is an initial run of `cs`
(models `String.prototype.startsWith`). -/
def leadsWith : List Char → List Char → Bool
  | [], _ => true
  | _ :: _, [] => false
  | p :: ps, c :: cs => p == c && leadsWith ps cs

/-- `trailsWith suf cs` holds when `suf` is a final run of `cs`
(models `String.prototype.endsWith`). -/
def trailsWith (suf cs : List Char) : Bool :=
  leadsWith suf.reverse cs.reverse

/-- Split a character list at every character satisfying `p`, keeping empty
chunks, as `String.prototype.split` does with a single-character pattern. -/
def splitOnPred (p : Char → Bool) : List Char → List (List Char)
  | [] => [[]]
  | c :: cs =>
    let r := splitOnPred p cs
    if p c then [] :: r
    else
      match r with
      | [] => [[c]]
      | w :: ws => (c :: w) :: ws

/-- Split before every uppercase letter, as `split(/(?=[A-Z])/)` does
(a zero-width match at position 0 does not produce a leading empty chunk). -/
def splitCaps : List Char → List (List Char)
  | [] => [[]]
  | c :: cs =>
    match cs with
    | [] => [[c]]
    | d :: _ =>
      let r := splitCaps cs
      if d.isUpper then [c] :: r
      else
        match r with
        | [] => [[c]]
        | w :: ws => (c :: w) :: ws

/-- `Option`-valued map over a list, failing if any element fails
(the classifier loop inside the `try` block: one throw aborts the whole
pattern computation). -/
def mapOpt (f : α → Option β) : List α → Option (List β)
  | [] => some []
  | a :: as =>
    match f a, mapOpt f as with
    | some b, some bs => some (b :: bs)
    | _, _ => none

/-- Join segments with `/` (models `Array.prototype.join('/')`). -/
def joinSegs : List (List Char) → List Char
  | [] => []
  | [s] => s
  | s :: rest => s ++ '/' :: joinSegs rest

/-! ## decodeURIComponent -/

/-- Value of an ASCII hex digit. -/
def hexVal (c : Char) : Option Nat :=
  if '0' ≤ c ∧ c ≤ '9' then some (c.toNat - '0'.toNat)
  else if 'a' ≤ c ∧ c ≤ 'f' then some (c.toNat - 'a'.toNat + 10)
  else if 'A' ≤ c ∧ c ≤ 'F' then some (c.toNat - 'A'.toNat + 10)
  else none

/-- Lex a percent-encoded string into literal characters (`Sum.inr`) and
percent-escaped bytes (`Sum.inl`); `none` on a malformed escape, where
`decodeURIComponent` throws `URIError`. -/
def pctLex : List Char → Option (List (Sum Nat Char))
  | [] => some []
  | '%' :: a :: b :: rest =>
    match hexVal a, hexVal b, pctLex rest with
    | some ha, some hb, some r => some (.inl (16 * ha + hb) :: r)
    | _, _, _ => none
  | '%' :: _ => none
  | c :: rest =>
    match pctLex rest with
    | some r => some (.inr c :: r)
    | none => none

/-- Is `b` a UTF-8 continuation byte. -/
def utf8Cont (b : Nat) : Bool := 0x80 ≤ b && b ≤ 0xBF

/-- Strict UTF-8 decoding of the lexed units: escaped bytes must form
valid (non-overlong, non-surrogate) UTF-8 sequences made entirely of
escaped bytes, exactly as `decodeURIComponent` requires; literal
characters pass through. -/
def utf8Dec : List (Sum Nat Char) → Option (List Char)
  | [] => some []
  | .inr c :: rest =>
    match utf8Dec rest with
    | some r => some (c :: r)
    | none => none
  | .inl b :: rest =>
    if b < 0x80 then
      match utf8Dec rest with
      | some r => some (Char.ofNat b :: r)
      | none => none
    else if 0xC2 ≤ b ∧ b ≤ 0xDF then
      match rest with
      | .inl b2 :: rest2 =>
        if utf8Cont b2 then
          match utf8Dec rest2 with
          | some r => some (Char.ofNat ((b - 0xC0) * 64 + (b2 - 0x80)) :: r)
          | none => none
        else none
      | _ => none
    else if 0xE0 ≤ b ∧ b ≤ 0xEF then
      match rest with
      | .inl b2 :: .inl b3 :: rest3 =>
        let lo2 := if b = 0xE0 then 0xA0 else 0x80
        let hi2 := if b = 0xED then 0x9F else 0xBF
        if (lo2 ≤ b2 && b2 ≤ hi2) && utf8Cont b3 then
          match utf8Dec rest3 with
          | some r =>
            some (Char.ofNat ((b - 0xE0) * 4096 + (b2 - 0x80) * 64 + (b3 - 0x80)) :: r)
          | none => none
        else none
      | _ => none
    else if 0xF0 ≤ b ∧ b ≤ 0xF4 then
      match rest with
      | .inl b2 :: .inl b3 :: .inl b4 :: rest4 =>
        let lo2 := if b = 0xF0 then 0x90 else 0x80
        let hi2 := if b = 0xF4 then 0x8F else 0xBF
        if (lo2 ≤ b2 && b2 ≤ hi2) && utf8Cont b3 && utf8Cont b4 then
          match utf8Dec rest4 with
          | some r =>
            some (Char.ofNat ((b - 0xF0) * 262144 + (b2 - 0x80) * 4096 +
              (b3 - 0x80) * 64 + (b4 - 0x80)) :: r)
          | none => none
        else none
      | _ => none
    else none

/-- Model of JavaScript `decodeURIComponent`: `none` where it throws. -/
def decodeURIComponent (cs : List Char) : Option (List Char) :=
  match pctLex cs with
  | none => none
  | some units => utf8Dec units

/-! ## Segment classifier (`isLikelyEnglishWord`, `isLikelyId`) -/

/-- Characters outside printable ASCII, the regex `/[^\x20-\x7E]/`. -/
def nonPrintable (c : Char) : Bool := c.toNat < 0x20 || 0x7E < c.toNat

/-- The regex `/^\d+$/`. -/
def allDigits (cs : List Char) : Bool := !cs.isEmpty && cs.all Char.isDigit

/-- The regex `/^[a-f0-9-]{8,}$/`. -/
def hexHyphen (cs : List Char) : Bool :=
  decide (8 ≤ cs.length) &&
    cs.all (fun c => c.isDigit || ('a' ≤ c && c ≤ 'f') || c == '-')

/-- The regex `/^[a-zA-Z0-9]{8,}$/`. -/
def alnum8 (cs : List Char) : Bool :=
  decide (8 ≤ cs.length) && cs.all (fun c => c.isAlpha || c.isDigit)

/-- The regex `/^[a-z-]+$/`. -/
def lowerKebab (cs : List Char) : Bool :=
  !cs.isEmpty && cs.all (fun c => c.isLower || c == '-')

/-- The regex `/^[A-Z][a-z]+$/` (the split branch's PascalCase test:
a single capital run). -/
def innerPascal (cs : List Char) : Bool :=
  match cs with
  | c :: rest => c.isUpper && !rest.isEmpty && rest.all Char.isLower
  | [] => false

/-- State machine for the regex `/^([A-Z][a-z]+)+[A-Z]?$/` (the
splittability trigger's PascalCase test).  States: 0 = expecting the
first group's capital; 1 = saw a capital, no lowercase yet, no complete
group; 2 = inside a group's lowercase run; 3 = saw a capital after at
least one complete group (may be the trailing optional capital). -/
def outerPascalAux : Nat → List Char → Bool
  | 0, [] => false
  | 0, c :: cs => c.isUpper && outerPascalAux 1 cs
  | 1, [] => false
  | 1, c :: cs => c.isLower && outerPascalAux 2 cs
  | 2, [] => true
  | 2, c :: cs =>
    if c.isLower then outerPascalAux 2 cs
    else c.isUpper && outerPascalAux 3 cs
  | 3, [] => true
  | 3, c :: cs => c.isLower && outerPascalAux 2 cs
  | _ + 4, _ => false

/-- The regex `/^([A-Z][a-z]+)+[A-Z]?$/`. -/
def outerPascal (cs : List Char) : Bool := outerPascalAux 0 cs

/-- The stop-list `commonPathWords` from `isLikelyId`, verbatim
(including the duplicated `dashboard`). -/
def commonPathWords : List String :=
  ["about", "contact", "services", "products", "support", "help", "login",
   "register", "profile", "account", "settings", "dashboard", "admin",
   "manage", "create", "edit", "delete", "update", "search", "filter",
   "category", "categories", "archive", "archives", "download", "downloads",
   "upload", "uploads", "media", "images", "videos", "files", "document",
   "documents", "report", "reports", "analytics", "statistics", "metrics",
   "dashboard", "overview", "summary", "details", "preview", "history",
   "timeline", "calendar", "schedule", "events", "notifications", "messages",
   "inbox", "outbox", "trash", "recycle", "backup", "restore", "export",
   "import", "sync", "connect", "disconnect", "configure", "configuration",
   "preferences", "options", "advanced", "security", "privacy", "terms",
   "conditions", "policy", "policies", "legal", "copyright", "trademark",
   "patent", "license", "licenses", "agreement", "contract"]

/-- `isLikelyEnglishWord` from `htmlExtractor.ts`: letter-ratio check
(`letterCount / segment.length < 0.7`, which is false for the empty
string since `NaN < 0.7` is false — encoded exactly by
`10 * letters < 7 * length`), then the spell-checker on the lowercased
segment. -/
def isLikelyEnglishWord (miss : List Char → Bool) (segment : List Char) : Bool :=
  let letterCount := (segment.filter Char.isAlpha).length
  if 10 * letterCount < 7 * segment.length then false
  else !miss (lowerList segment)

/-- `isLikelyId` from `htmlExtractor.ts`.  `none` models the `URIError`
thrown by `decodeURIComponent` on a malformed segment (caught by
`generateUrlPattern`'s `try`).  The source's single
`if (contains '-' || outer-PascalCase || contains '_' || contains '.')`
block with three inner `if`/`else if` branches is written here as a
flat chain: `-` branch first, then `_`/`.`, then the remaining trigger,
outer PascalCase, whose body is the source's inner
`/^[A-Z][a-z]+$/` branch — when that inner test fails, `words` stays
`[]` and `words.every(...)` is vacuously true, so the result is
`false`. -/
def isLikelyId (miss : List Char → Bool) (urlSegment : List Char) : Option Bool :=
  match decodeURIComponent urlSegment with
  | none => none
  | some seg =>
    if seg.any nonPrintable then some true
    else if seg.length < 8 then some (!isLikelyEnglishWord miss seg)
    else if commonPathWords.contains (chStr (lowerList seg)) then some false
    else if seg.contains '-' then
      some (!(splitOnPred (fun c => c == '-') seg).all (isLikelyEnglishWord miss))
    else if seg.contains '_' || seg.contains '.' then
      some (!(splitOnPred (fun c => c == '_' || c == '.') seg).all
        (isLikelyEnglishWord miss))
    else if outerPascal seg then
      if innerPascal seg then
        let words := splitCaps seg
        if words.length == 1 then some true
        else some (!words.all (isLikelyEnglishWord miss))
      else some (!([] : List (List Char)).all (isLikelyEnglishWord miss))
    else if alnum8 seg && !lowerKebab seg then some true
    else if seg == lowerList seg && !isLikelyEnglishWord miss seg then some true
    else some false

/-! ## URL parsing and `generateUrlPattern` -/

/-- `normalizeUrl` from `htmlExtractor.ts`. -/
def normalizeUrl (url : String) : String :=
  if leadsWith "http://".data url.data || leadsWith "https://".data url.data then url
  else "https://" ++ url

/-- Characters acceptable in the (ASCII) host of a parsed URL; anything
else makes the WHATWG parser fail on the URLs in scope here. -/
def hostCharOK (c : Char) : Bool :=
  c.isAlpha || c.isDigit || c == '-' || c == '.' || c == '_'

/-- Strip a `http://` or `https://` scheme, or fail. -/
def dropScheme (cs : List Char) : Option (List Char) :=
  if leadsWith "https://".data cs then some (cs.drop 8)
  else if leadsWith "http://".data cs then some (cs.drop 7)
  else none

/-- The part of the authority after the last `@` (userinfo stripping). -/
def afterLastAt (cs : List Char) : List Char :=
  ((cs.reverse.takeWhile (fun c => c != '@'))).reverse

/-- Model of `new URL(...)` for the normalized `http`/`https` inputs this
code constructs, returning `(hostname, pathname)`: authority up to the
first `/`, `?` or `#`; userinfo dropped; host/port split at the first
`:` with a digits-only port; empty or non-ASCII-hostname inputs fail;
hostname lowercased; pathname is `/` when the path part is absent.
Dot-segment normalization, IDNA and percent-encoding of path characters
are outside the fidelity domain (no input in this development needs
them). `none` models the `TypeError` thrown on an invalid URL. -/
def parseUrl (s : String) : Option (List Char × List Char) :=
  match dropScheme s.data with
  | none => none
  | some rest =>
    let authority := rest.takeWhile (fun c => !(c == '/' || c == '?' || c == '#'))
    let after := rest.drop authority.length
    let hostport := afterLastAt authority
    let host := hostport.takeWhile (fun c => c != ':')
    let port :=
      match hostport.drop host.length with
      | [] => ([] : List Char)
      | _ :: t => t
    if host.isEmpty then none
    else if !port.all Char.isDigit then none
    else if !host.all hostCharOK then none
    else
      let pathname :=
        match after with
        | '/' :: _ => after.takeWhile (fun c => !(c == '?' || c == '#'))
        | _ => ['/']
      some (lowerList host, pathname)

/-- Path segments: split the pathname on `/` and drop empty segments. -/
def pathSegments (path : List Char) : List (List Char) :=
  (splitOnPred (fun c => c == '/') path).filter (fun s => !s.isEmpty)

/-- One step of the segment-mapping loop in `generateUrlPattern`:
digits → `{id}`; hex-and-hyphen length ≥ 8 → `{uuid}`; length ≥ 20 or
`isLikelyId` → `{id}`; otherwise the segment itself.  `none` propagates
a `decodeURIComponent` throw. -/
def classifySegment (miss : List Char → Bool) (segment : List Char) :
    Option (List Char) :=
  if allDigits segment then some "{id}".data
  else if hexHyphen segment then some "{uuid}".data
  else if 20 ≤ segment.length then some "{id}".data
  else
    match isLikelyId miss segment with
    | none => none
    | some true => some "{id}".data
    | some false => some segment

/-- `generateUrlPattern` from `htmlExtractor.ts`: parse the normalized
URL, classify each path segment, and recompose `hostname` +
(`/`-joined segments when non-empty); any failure inside the `try`
(URL parse or `decodeURIComponent`) returns the original input. -/
def generateUrlPattern (miss : List Char → Bool) (url : String) : String :=
  match parseUrl (normalizeUrl url) with
  | none => url
  | some (host, path) =>
    match mapOpt (classifySegment miss) (pathSegments path) with
    | none => url
    | some ps => chStr (host ++ (if ps.isEmpty then [] else '/' :: joinSegs ps))

/-! ## Stored records and association-list state -/

/-- `StoredParser` from `types.ts`: the persisted record shape.
`createdAt` (a `Date` in the source) is a logical timestamp. -/
structure StoredParser where
  urlPattern : String
  parser : String
  createdAt : Nat
  deriving DecidableEq, Repr

/-- Association-list lookup (JS `Map.get` / keyed file read). -/
def lookupA : List (String × α) → String → Option α
  | [], _ => none
  | (k, v) :: rest, q => if k = q then some v else lookupA rest q

/-- Association-list insert-or-replace (JS `Map.set` / file overwrite). -/
def insertA : List (String × α) → String → α → List (String × α)
  | [], k, v => [(k, v)]
  | (k0, v0) :: rest, k, v =>
    if k0 = k then (k, v) :: rest else (k0, v0) :: insertA rest k v

/-- Association-list delete (JS `Map.delete` / file unlink). -/
def eraseA (m : List (String × α)) (k : String) : List (String × α) :=
  m.filter (fun kv => kv.1 != k)

/-! ## Disk entry store (`DiskParserStorage`) -/

namespace DiskParserStorage

/-- Characters kept verbatim by the sanitizer (the class `[a-zA-Z0-9.-]`);
every other character becomes `_`. -/
def keepChar (c : Char) : Bool := c.isAlpha || c.isDigit || c == '.' || c == '-'

/-- Collapse runs of `_` to a single `_` (the `replace(/_+/g, '_')` step). -/
def collapseU : List Char → List Char
  | [] => []
  | [c] => [c]
  | a :: b :: rest =>
    if a == '_' && b == '_' then collapseU (b :: rest)
    else a :: collapseU (b :: rest)

/-- Remove one leading and one trailing underscore
(the `replace(/^_|_$/g, '')` step; after collapsing there is at most one
of each). -/
def trimU (cs : List Char) : List Char :=
  let cs1 := match cs with | '_' :: t => t | _ => cs
  (match cs1.reverse with | '_' :: t => t | other => other).reverse

/-- The sanitized storage name of a URL pattern, from `getParserFilePath`. -/
def sanitizePattern (urlPattern : String) : String :=
  chStr (trimU (collapseU (urlPattern.data.map (fun c => if keepChar c then c else '_'))))

/-- The storage file name for a pattern (`${sanitizedPattern}.json`,
ignoring the constant directory prefix). -/
def getParserFileName (urlPattern : String) : String :=
  sanitizePattern urlPattern ++ ".json"

/-- A directory as a list of `(fileName, content)` entries; `none` content
models a file whose bytes fail to `JSON.parse` (a corrupt record). -/
def Dir := List (String × Option StoredParser)

/-- `DiskParserStorage.set`: serialize the record and write (overwrite)
the file named by the sanitized pattern. -/
def set (files : Dir) (urlPattern parser : String) (now : Nat) : Dir :=
  insertA files (getParserFileName urlPattern)
    (some { urlPattern := urlPattern, parser := parser, createdAt := now })

/-- `DiskParserStorage.get`: read the file named by the sanitized pattern;
a missing file or a parse failure yields `null`. -/
def get (files : Dir) (urlPattern : String) : Option StoredParser :=
  match lookupA files (getParserFileName urlPattern) with
  | some (some p) => some p
  | _ => none

/-- `DiskParserStorage.getAll`: slice the raw directory listing to
`limit` entries first (skipped when `limit` is falsy, i.e. `0`), then
keep `.json` files other than `index.json` that parse. -/
def getAll (files : Dir) (limit : Nat) : List StoredParser :=
  let fs := if limit ≠ 0 then files.take limit else files
  fs.filterMap (fun nc =>
    if trailsWith ".json".data nc.1.data && nc.1 != "index.json" then nc.2 else none)

end DiskParserStorage

namespace InMemoryParserStorage

/-- `InMemoryParserStorage.getAll`: insertion-ordered values sliced to
`limit` (default 10 in the source). -/
def getAll (parsers : List StoredParser) (limit : Nat) : List StoredParser :=
  parsers.take limit

end InMemoryParserStorage

/-! ## Coalescing cache coordinator (`ParserService`)

`getParser`/`generateParser`/`performParserGeneration` run on the
Node.js event loop: the code between two `await`s of one task is a
single atomic continuation.  The model is a small-step event system
whose events are exactly those continuations:

* `callStart i` — caller `i` runs `getParser` up to `await storage.get`:
  validation, `generateUrlPattern`, and the issuing of the read.
* `getRead i` — the storage read completes, sampling the store.
* `getCont i` — the continuation after `await this.storage.get(...)`:
  the cache-hit return, or the whole synchronous body of
  `generateParser` — check `ongoingRequests`, either join the existing
  promise or (atomically, no `await` intervenes in the source) start
  `performParserGeneration` up to its first `await` (which invokes the
  generator), register the promise and lead.
* `genDone p` — the generator settles: on success the continuation
  issues `storage.set`; on failure the `catch` wraps the error and the
  promise rejects.
* `saveDone p` — the `storage.set` write settles: on success the record
  is stored and the promise resolves with the fresh response; on
  failure the `catch` wraps the error and the promise rejects.
* `resume i` — a caller awaiting a settled promise resumes; the leader's
  `finally` additionally deletes the in-flight registration.

The scheduler (which enabled event fires next) is arbitrary, so every
interleaving the event loop can produce is covered. -/

instance {ε α : Type} [DecidableEq ε] [DecidableEq α] : DecidableEq (Except ε α) :=
  fun x y =>
    match x, y with
    | .ok a, .ok b =>
      if h : a = b then isTrue (by rw [h])
      else isFalse (by intro he; cases he; exact h rfl)
    | .error a, .error b =>
      if h : a = b then isTrue (by rw [h])
      else isFalse (by intro he; cases he; exact h rfl)
    | .ok _, .error _ => isFalse (by intro h; cases h)
    | .error _, .ok _ => isFalse (by intro h; cases h)

/-- `ParserResponse` from `types.ts`. -/
structure ParserResponse where
  parser : String
  createdAt : Nat
  cached : Bool
  urlPattern : String
  deriving DecidableEq, Repr

/-- The state of one `performParserGeneration` promise. -/
inductive PromiseState where
  /-- Awaiting `parserGenerator.generateParser`; `invocation` is the index
  of this generator invocation. -/
  | genWait (key : String) (invocation : Nat)
  /-- Generator succeeded with `code`; awaiting `storage.set`. -/
  | setWait (key : String) (code : String)
  /-- Settled with a result or a (wrapped) error. -/
  | settled (res : Except String ParserResponse)
  deriving DecidableEq, Repr

/-- Where one logical `getParser` caller currently is. -/
inductive CallerPhase where
  /-- Not yet started. -/
  | ready
  /-- Issued `storage.get key`, awaiting it. -/
  | getWait (key : String)
  /-- The read completed with `found`; continuation not yet run. -/
  | getDone (key : String) (found : Option StoredParser)
  /-- Awaiting an already-registered promise (a coalesced waiter). -/
  | joinWait (pid : Nat)
  /-- Awaiting its own registered promise (the caller whose `finally`
  clears the in-flight entry). -/
  | leadWait (pid : Nat) (key : String)
  /-- `getParser` returned or threw. -/
  | finished (res : Except String ParserResponse)
  deriving DecidableEq, Repr

/-- One logical caller. -/
structure CallerTask where
  url : String
  html : String
  phase : CallerPhase
  deriving DecidableEq, Repr

/-- The injected collaborators: the dictionary oracle, the generator's
outcome for its `n`-th invocation (`.error m` models a rejection whose
`Error` has message `m`), and the store's outcome for its `n`-th write
(`.error m` models the underlying failure message wrapped by
`DiskParserStorage.set` into `Cannot save parser: m`). -/
structure ServiceCtx where
  miss : List Char → Bool
  gen : Nat → Except String String
  save : Nat → Except String Unit

/-- The shared state of a `ParserService` instance plus its callers. -/
structure ServiceState where
  callers : List CallerTask
  storage : List (String × StoredParser)
  ongoing : List (String × Nat)
  promises : List PromiseState
  genCount : Nat
  saveCount : Nat
  clock : Nat
  deriving DecidableEq, Repr

/-- Scheduler events (atomic continuations, see the section comment). -/
inductive ServiceEvent where
  | callStart (i : Nat)
  | getRead (i : Nat)
  | getCont (i : Nat)
  | genDone (p : Nat)
  | saveDone (p : Nat)
  | resume (i : Nat)
  deriving DecidableEq, Repr

/-- Replace caller `i`'s phase. -/
def setPhase (s : ServiceState) (i : Nat) (ph : CallerPhase) : ServiceState :=
  match s.callers[i]? with
  | some c => { s with callers := s.callers.set i { c with phase := ph } }
  | none => s

/-- Is the event enabled (its task exists and is at the right point)? -/
def enabled (s : ServiceState) (e : ServiceEvent) : Bool :=
  match e with
  | .callStart i =>
    match s.callers[i]? with
    | some c => match c.phase with | .ready => true | _ => false
    | none => false
  | .getRead i =>
    match s.callers[i]? with
    | some c => match c.phase with | .getWait _ => true | _ => false
    | none => false
  | .getCont i =>
    match s.callers[i]? with
    | some c => match c.phase with | .getDone _ _ => true | _ => false
    | none => false
  | .genDone p =>
    match s.promises[p]? with
    | some (.genWait _ _) => true
    | _ => false
  | .saveDone p =>
    match s.promises[p]? with
    | some (.setWait _ _) => true
    | _ => false
  | .resume i =>
    match s.callers[i]? with
    | some c =>
      match c.phase with
      | .joinWait pid =>
        match s.promises[pid]? with
        | some (.settled _) => true
        | _ => false
      | .leadWait pid _ =>
        match s.promises[pid]? with
        | some (.settled _) => true
        | _ => false
      | _ => false
    | none => false

/-- Execute one event (identity on a disabled event; runs only pair it
with `enabled`). -/
def step (ctx : ServiceCtx) (s : ServiceState) (e : ServiceEvent) : ServiceState :=
  match e with
  | .callStart i =>
    match s.callers[i]? with
    | some c =>
      match c.phase with
      | .ready =>
        if c.url = "" ∨ c.html = "" then
          setPhase s i (.finished (.error "URL and HTML are required"))
        else
          setPhase s i (.getWait (generateUrlPattern ctx.miss c.url))
      | _ => s
    | none => s
  | .getRead i =>
    match s.callers[i]? with
    | some c =>
      match c.phase with
      | .getWait key => setPhase s i (.getDone key (lookupA s.storage key))
      | _ => s
    | none => s
  | .getCont i =>
    match s.callers[i]? with
    | some c =>
      match c.phase with
      | .getDone key found =>
        match found with
        | some sp =>
          setPhase s i (.finished (.ok
            { parser := sp.parser, createdAt := sp.createdAt,
              cached := true, urlPattern := key }))
        | none =>
          match lookupA s.ongoing key with
          | some pid => setPhase s i (.joinWait pid)
          | none =>
            let pid := s.promises.length
            let s1 := setPhase s i (.leadWait pid key)
            { s1 with
              promises := s1.promises ++ [.genWait key s1.genCount],
              genCount := s1.genCount + 1,
              ongoing := insertA s1.ongoing key pid }
      | _ => s
    | none => s
  | .genDone p =>
    match s.promises[p]? with
    | some (.genWait key idx) =>
      match ctx.gen idx with
      | .ok code => { s with promises := s.promises.set p (.setWait key code) }
      | .error m =>
        { s with promises :=
            s.promises.set p (.settled (.error ("Failed to generate parser: " ++ m))) }
    | _ => s
  | .saveDone p =>
    match s.promises[p]? with
    | some (.setWait key code) =>
      match ctx.save s.saveCount with
      | .ok _ =>
        { s with
          storage := insertA s.storage key
            { urlPattern := key, parser := code, createdAt := s.clock },
          promises := s.promises.set p (.settled (.ok
            { parser := code, createdAt := s.clock,
              cached := false, urlPattern := key })),
          saveCount := s.saveCount + 1,
          clock := s.clock + 1 }
      | .error m =>
        { s with
          promises := s.promises.set p
            (.settled (.error ("Failed to generate parser: Cannot save parser: " ++ m))),
          saveCount := s.saveCount + 1 }
    | _ => s
  | .resume i =>
    match s.callers[i]? with
    | some c =>
      match c.phase with
      | .joinWait pid =>
        match s.promises[pid]? with
        | some (.settled r) => setPhase s i (.finished r)
        | _ => s
      | .leadWait pid key =>
        match s.promises[pid]? with
        | some (.settled r) =>
          let s1 := setPhase s i (.finished r)
          { s1 with ongoing := eraseA s1.ongoing key }
        | _ => s
      | _ => s
    | none => s

/-- Run a schedule, failing on a disabled event (so a successful run is
a legal interleaving). -/
def runService (ctx : ServiceCtx) : ServiceState → List ServiceEvent → Option ServiceState
  | s, [] => some s
  | s, e :: evs => if enabled s e then runService ctx (step ctx s e) evs else none

/-- Every caller is past its miss-branch continuation (has joined a
promise, leads one, or finished). -/
def allJoined (s : ServiceState) : Bool :=
  s.callers.all (fun c =>
    match c.phase with
    | .ready | .getWait _ | .getDone _ _ => false
    | _ => true)

/-- Is the event a generator completion? -/
def isGenDone : ServiceEvent → Bool
  | .genDone _ => true
  | _ => false

/-- The schedule only completes a generator call after every caller has
run its miss-branch continuation: the formalization of the callers being
*concurrent* with the generation (a generation takes at least one
event-loop turn, while the miss branches of already-arrived callers run
before it completes). -/
def coalesced (ctx : ServiceCtx) : ServiceState → List ServiceEvent → Bool
  | _, [] => true
  | s, e :: evs =>
    (if isGenDone e then allJoined s else true) &&
      coalesced ctx (step ctx s e) evs

/-- Every caller finished. -/
def allFinished (s : ServiceState) : Bool :=
  s.callers.all (fun c => match c.phase with | .finished _ => true | _ => false)

/-- The initial state: the given callers, a given persistent store,
no in-flight table entries, no promises. -/
def initState (cs : List CallerTask) (st0 : List (String × StoredParser)) : ServiceState :=
  { callers := cs, storage := st0, ongoing := [], promises := [],
    genCount := 0, saveCount := 0, clock := 0 }

/-! ## The claim-C8 classification rule, stated from the spec's words

These two definitions deliberately follow the *claim's* wording, not the
source, so that the source's `isLikelyId` can be compared against them.
They apply to the decoded segment of a splittable segment that has
already passed the outer guards (length 8–19, printable ASCII,
not all digits, not hex-and-hyphen, not stop-listed). -/

/-- The sub-tokens "obtained by splitting on the matching delimiter":
hyphens first, then underscore/dot, else the PascalCase capital
boundaries. -/
def claimSubTokens (d : List Char) : List (List Char) :=
  if d.contains '-' then splitOnPred (fun c => c == '-') d
  else if d.contains '_' || d.contains '.' then
    splitOnPred (fun c => c == '_' || c == '.') d
  else splitCaps d

/-- Claim C8's rule as stated: a PascalCase match whose split yields
exactly one token is an id; otherwise the segment is a literal (not an
id) exactly when every sub-token passes the word-likelihood test. -/
def claimC8Rule (miss : List Char → Bool) (d : List Char) : Bool :=
  if (outerPascal d && !d.contains '-' && !d.contains '_' && !d.contains '.') &&
      (claimSubTokens d).length == 1 then
    true
  else !(claimSubTokens d).all (isLikelyEnglishWord miss)

/-- Claim C8 amended to what the source does: delimiter-split segments
follow the every-sub-token rule; a PascalCase match that is a single
capital run (`/^[A-Z][a-z]+$/`) splits into one token and is an id;
any other PascalCase match (several capital runs, no delimiter) is
classified literal unconditionally — its capital-split sub-tokens are
never tested. -/
def claimC8RuleAmended (miss : List Char → Bool) (d : List Char) : Bool :=
  if d.contains '-' || d.contains '_' || d.contains '.' then
    !(claimSubTokens d).all (isLikelyEnglishWord miss)
  else if innerPascal d then true
  else false

/-! ## Invariants for the coordinator proofs -/

/-- A caller that passes `getParser`'s input validation and whose URL
derives the key `k`. -/
abbrev goodCaller (ctx : ServiceCtx) (k : String) (c : CallerTask) : Prop :=
  c.url ≠ "" ∧ c.html ≠ "" ∧ generateUrlPattern ctx.miss c.url = k

/-- Every caller is good for `k` and its phase satisfies `P`. -/
abbrev CallersOK (ctx : ServiceCtx) (k : String) (P : CallerPhase → Prop)
    (s : ServiceState) : Prop :=
  ∀ (i : Nat) (c : CallerTask), s.callers[i]? = some c → goodCaller ctx k c ∧ P c.phase

/-- Caller `i` is the leader (awaits its own promise 0 for `k`). -/
abbrev leaderAt (k : String) (s : ServiceState) (i : Nat) : Prop :=
  ∃ c, s.callers[i]? = some c ∧ c.phase = .leadWait 0 k

/-- Exactly one leader. -/
abbrev oneLeader (k : String) (s : ServiceState) : Prop :=
  ∃ i, leaderAt k s i ∧ ∀ j, leaderAt k s j → j = i

/-- Phases before the miss-branch continuation has run. -/
abbrev earlyPh (k : String) (ph : CallerPhase) : Prop :=
  ph = .ready ∨ ph = .getWait k ∨ ph = .getDone k none

/-- Phases possible while the generation is pending. -/
abbrev anyPh (k : String) (ph : CallerPhase) : Prop :=
  earlyPh k ph ∨ ph = .joinWait 0 ∨ ph = .leadWait 0 k

/-- Phases once every caller has joined the single in-flight promise. -/
abbrev joinedPh (k : String) (ph : CallerPhase) : Prop :=
  ph = .joinWait 0 ∨ ph = .leadWait 0 k

/-- Phases after the promise settled with `r`, leader not yet resumed. -/
abbrev postPh (k : String) (r : Except String ParserResponse) (ph : CallerPhase) : Prop :=
  ph = .joinWait 0 ∨ ph = .leadWait 0 k ∨ ph = .finished r

/-- Phases after the leader's `finally` ran. -/
abbrev donePh (r : Except String ParserResponse) (ph : CallerPhase) : Prop :=
  ph = .joinWait 0 ∨ ph = .finished r

/-- The settled result of the batch and the matching store/bookkeeping
state, by the three possible collaborator outcomes: generator failure
(wrapped, nothing persisted), full success (record persisted), or
persistence failure after a successful generation (doubly wrapped
error, nothing persisted). -/
abbrev OutcomeSpec (ctx : ServiceCtx) (k : String) (st0 : List (String × StoredParser))
    (r : Except String ParserResponse) (s : ServiceState) : Prop :=
  (∃ m, ctx.gen 0 = .error m ∧ r = .error ("Failed to generate parser: " ++ m) ∧
    s.storage = st0 ∧ s.saveCount = 0 ∧ s.clock = 0) ∨
  (∃ code, ctx.gen 0 = .ok code ∧ ctx.save 0 = .ok () ∧
    r = .ok { parser := code, createdAt := 0, cached := false, urlPattern := k } ∧
    s.storage = insertA st0 k { urlPattern := k, parser := code, createdAt := 0 } ∧
    s.saveCount = 1 ∧ s.clock = 1) ∨
  (∃ code m, ctx.gen 0 = .ok code ∧ ctx.save 0 = .error m ∧
    r = .error ("Failed to generate parser: Cannot save parser: " ++ m) ∧
    s.storage = st0 ∧ s.saveCount = 1 ∧ s.clock = 0)

/-- Stage A: no generation started yet. -/
abbrev StageA (ctx : ServiceCtx) (k : String) (st0 : List (String × StoredParser))
    (s : ServiceState) : Prop :=
  s.promises = [] ∧ s.ongoing = [] ∧ s.genCount = 0 ∧ s.saveCount = 0 ∧
  s.clock = 0 ∧ s.storage = st0 ∧ CallersOK ctx k (earlyPh k) s

/-- Stage B1: the single generation is in flight, generator pending. -/
abbrev StageB1 (ctx : ServiceCtx) (k : String) (st0 : List (String × StoredParser))
    (s : ServiceState) : Prop :=
  s.promises = [.genWait k 0] ∧ s.ongoing = [(k, 0)] ∧ s.genCount = 1 ∧
  s.saveCount = 0 ∧ s.clock = 0 ∧ s.storage = st0 ∧ oneLeader k s ∧
  CallersOK ctx k (anyPh k) s

/-- Stage B2: generator succeeded, the persistence write is pending
(every caller has already joined, by the coalescing premise). -/
abbrev StageB2 (ctx : ServiceCtx) (k : String) (st0 : List (String × StoredParser))
    (s : ServiceState) : Prop :=
  ∃ code, ctx.gen 0 = .ok code ∧ s.promises = [.setWait k code] ∧
    s.ongoing = [(k, 0)] ∧ s.genCount = 1 ∧ s.saveCount = 0 ∧ s.clock = 0 ∧
    s.storage = st0 ∧ oneLeader k s ∧ CallersOK ctx k (joinedPh k) s

/-- Stage C: promise settled, leader not yet resumed (registration still
present). -/
abbrev StageC (ctx : ServiceCtx) (k : String) (st0 : List (String × StoredParser))
    (s : ServiceState) : Prop :=
  ∃ r, s.promises = [.settled r] ∧ OutcomeSpec ctx k st0 r s ∧
    s.ongoing = [(k, 0)] ∧ s.genCount = 1 ∧ oneLeader k s ∧
    CallersOK ctx k (postPh k r) s

/-- Stage D: the leader's `finally` cleared the registration. -/
abbrev StageD (ctx : ServiceCtx) (k : String) (st0 : List (String × StoredParser))
    (s : ServiceState) : Prop :=
  ∃ r, s.promises = [.settled r] ∧ OutcomeSpec ctx k st0 r s ∧
    s.ongoing = [] ∧ s.genCount = 1 ∧ (∀ j, ¬leaderAt k s j) ∧
    CallersOK ctx k (donePh r) s

/-- The batch invariant: caller count is fixed and the system is in one
of the five lifecycle stages. -/
abbrev BatchInv (ctx : ServiceCtx) (k : String) (st0 : List (String × StoredParser))
    (n : Nat) (s : ServiceState) : Prop :=
  s.callers.length = n ∧
    (StageA ctx k st0 s ∨ StageB1 ctx k st0 s ∨ StageB2 ctx k st0 s ∨
      StageC ctx k st0 s ∨ StageD ctx k st0 s)

/-- Phases of a fresh caller running against a warm cache entry `e`. -/
abbrev HitPh (k : String) (e : StoredParser) (ph : CallerPhase) : Prop :=
  ph = .ready ∨ ph = .getWait k ∨ ph = .getDone k (some e) ∨
    ph = .finished (.ok ⟨e.parser, e.createdAt, true, k⟩)

/-- Invariant for a single fresh caller appended to a quiescent state
`s1` (all promises settled, all original callers finished): nothing but
the fresh caller's phase moves. -/
abbrev HitInv (k : String) (s1 : ServiceState) (e : StoredParser)
    (nc : CallerTask) (s : ServiceState) : Prop :=
  s.storage = s1.storage ∧ s.promises = s1.promises ∧ s.genCount = s1.genCount ∧
  s.ongoing = s1.ongoing ∧ s.callers.length = s1.callers.length + 1 ∧
  (∀ (i : Nat) (c : CallerTask), i ≠ s1.callers.length → s.callers[i]? = some c →
    ∃ r, c.phase = .finished r) ∧
  (∃ c, s.callers[s1.callers.length]? = some c ∧ c.url = nc.url ∧
    c.html = nc.html ∧ HitPh k e c.phase)

/-! ## Concrete oracles, contexts and schedules used by the witnesses -/

/-- A dictionary in which every token is a known word
(`isMisspelled` is constantly false). -/
def missNone : List Char → Bool := fun _ => false

/-- A dictionary in which no token is a known word. -/
def missAll : List Char → Bool := fun _ => true

/-- A concrete caller whose URL derives the key `example.com/x`. -/
def callerX : CallerTask := { url := "https://example.com/x", html := "<p>hi</p>", phase := .ready }

/-- Generator and store always succeed. -/
def ctxOk : ServiceCtx := { miss := missNone, gen := fun _ => .ok "CODE", save := fun _ => .ok () }

/-- Generator always rejects with message `boom`. -/
def ctxGenFail : ServiceCtx :=
  { miss := missNone, gen := fun _ => .error "boom", save := fun _ => .ok () }

/-- Generator succeeds, the store write fails with `disk full`. -/
def ctxSaveFail : ServiceCtx :=
  { miss := missNone, gen := fun _ => .ok "CODE", save := fun _ => .error "disk full" }

/-- Two concurrent identical callers on a cold store. -/
def initPair : ServiceState := initState [callerX, callerX] []

/-- One caller on a cold store. -/
def initSingle : ServiceState := initState [callerX] []

/-- A complete coalesced schedule for two callers and a successful
generation. -/
def evsPair : List ServiceEvent :=
  [.callStart 0, .callStart 1, .getRead 0, .getRead 1, .getCont 0, .getCont 1,
   .genDone 0, .saveDone 0, .resume 0, .resume 1]

/-- A complete coalesced schedule for two callers and a failing
generation. -/
def evsPairFail : List ServiceEvent :=
  [.callStart 0, .callStart 1, .getRead 0, .getRead 1, .getCont 0, .getCont 1,
   .genDone 0, .resume 0, .resume 1]

/-- A complete schedule for one caller (generation plus write). -/
def evsSingle : List ServiceEvent :=
  [.callStart 0, .getRead 0, .getCont 0, .genDone 0, .saveDone 0, .resume 0]

/-- Final state of the two-caller success run. -/
def sPairOk : ServiceState := (runService ctxOk initPair evsPair).getD (initState [] [])

/-- Final state of the two-caller failing-generator run. -/
def sPairFail : ServiceState :=
  (runService ctxGenFail initPair evsPairFail).getD (initState [] [])

/-- Final state of the one-caller failing-write run. -/
def sSingleSave : ServiceState :=
  (runService ctxSaveFail initSingle evsSingle).getD (initState [] [])

/-- Final state of the one-caller success run (warm cache for the
cache-hit claim). -/
def sSingleOk : ServiceState :=
  (runService ctxOk initSingle evsSingle).getD (initState [] [])

/-- True when the caller's `getParser` returned successfully. -/
def callerSucceeded (c : CallerTask) : Bool :=
  match c.phase with
  | .finished (.ok _) => true
  | _ => false

/-! ## Concrete data for the store claims -/

/-- Two distinct URL patterns (both produced by `generateUrlPattern`)
that sanitize to the same storage name. -/
def patTechNews : String := "example.com/posts/tech_news"

/-- See `patTechNews`. -/
def patPostsTech : String := "example.com/posts_tech/news"

/-- A directory listing: one corrupt `.json` file followed by ten valid
records. -/
def dir10 : DiskParserStorage.Dir :=
  [("bad.json", none),
   ("f0.json", some { urlPattern := "k0", parser := "p", createdAt := 0 }),
   ("f1.json", some { urlPattern := "k1", parser := "p", createdAt := 1 }),
   ("f2.json", some { urlPattern := "k2", parser := "p", createdAt := 2 }),
   ("f3.json", some { urlPattern := "k3", parser := "p", createdAt := 3 }),
   ("f4.json", some { urlPattern := "k4", parser := "p", createdAt := 4 }),
   ("f5.json", some { urlPattern := "k5", parser := "p", createdAt := 5 }),
   ("f6.json", some { urlPattern := "k6", parser := "p", createdAt := 6 }),
   ("f7.json", some { urlPattern := "k7", parser := "p", createdAt := 7 }),
   ("f8.json", some { urlPattern := "k8", parser := "p", createdAt := 8 }),
   ("f9.json", some { urlPattern := "k9", parser := "p", createdAt := 9 })]

/-- Eleven records in an in-memory store. -/
def mem11 : List StoredParser :=
  [{ urlPattern := "m0", parser := "p", createdAt := 0 },
   { urlPattern := "m1", parser := "p", createdAt := 1 },
   { urlPattern := "m2", parser := "p", createdAt := 2 },
   { urlPattern := "m3", parser := "p", createdAt := 3 },
   { urlPattern := "m4", parser := "p", createdAt := 4 },
   { urlPattern := "m5", parser := "p", createdAt := 5 },
   { urlPattern := "m6", parser := "p", createdAt := 6 },
   { urlPattern := "m7", parser := "p", createdAt := 7 },
   { urlPattern := "m8", parser := "p", createdAt := 8 },
   { urlPattern := "m9", parser := "p", createdAt := 9 },
   { urlPattern := "m10", parser := "p", createdAt := 10 }]

/-- The one-caller success state extended with a second identical caller. -/
def initHit : ServiceState :=
  { sSingleOk with callers := sSingleOk.callers ++ [callerX] }

/-- Schedule for the second (cache-hit) caller. -/
def evsHit : List ServiceEvent := [.callStart 1, .getRead 1, .getCont 1]

/-- Final state of the cache-hit run. -/
def sHit : ServiceState := (runService ctxOk initHit evsHit).getD (initState [] [])

/-! ## Theorems -/


-- C5
theorem generateUrlPattern_total_fallback (miss : List Char → Bool) (url : String)
    (h : parseUrl (normalizeUrl url) = none) :
    generateUrlPattern miss url = url ∧
    generateUrlPattern miss "not-a-valid-url" = "not-a-valid-url" := by
  constructor
  · unfold generateUrlPattern
    rw [h]
  · rfl

theorem generateUrlPattern_total_fallback_witness :
    parseUrl (normalizeUrl "https://") = none ∧
    generateUrlPattern missNone "https://" = "https://" ∧
    generateUrlPattern missNone "not-a-valid-url" = "not-a-valid-url" :=
  ⟨by decide, (generateUrlPattern_total_fallback missNone "https://" (by decide)).1,
    (generateUrlPattern_total_fallback missNone "https://" (by decide)).2⟩

/-- C6, counterexample: the UUID segment is replaced by the `{uuid}`
placeholder, which differs from the `{id}` token the claim asserts, so a
UUID does *not* normalize to the same placeholder as a numeric id. -/
theorem uuid_segment_uuid_token_cex :
    generateUrlPattern missNone
        "https://example.com/users/123e4567-e89b-12d3-a456-426614174000"
      = "example.com/users/{uuid}" ∧
    "example.com/users/{uuid}" ≠ "example.com/users/{id}" := by
  exact ⟨by decide, by decide⟩

/-- Unfolding helper: `generateUrlPattern` after a successful URL parse. -/
theorem generateUrlPattern_parse_eq (miss : List Char → Bool) (url : String)
    (host path : List Char)
    (hp : parseUrl (normalizeUrl url) = some (host, path)) :
    generateUrlPattern miss url =
      (match mapOpt (classifySegment miss) (pathSegments path) with
        | none => url
        | some ps => chStr (host ++ (if ps.isEmpty then [] else '/' :: joinSegs ps))) := by
  unfold generateUrlPattern
  rw [hp]

/-- The segment `users` (length < 8) is kept verbatim exactly when the
dictionary knows the word. -/
theorem classifySegment_users (miss : List Char → Bool)
    (h : miss "users".data = false) :
    classifySegment miss "users".data = some "users".data := by
  have t1 : classifySegment miss "users".data =
      (match isLikelyId miss "users".data with
        | none => none
        | some true => some "{id}".data
        | some false => some "users".data) := rfl
  have t2 : isLikelyId miss "users".data = some (!(!(miss "users".data))) := rfl
  rw [t1, t2, h]
  rfl

/-- C6, amended: for any dictionary that recognizes `users`, the UUID
example maps to `example.com/users/{uuid}` — the UUID placeholder is
`{uuid}`, distinct from the `{id}` token used for numeric ids. -/
theorem uuid_segment_uuid_token (miss : List Char → Bool)
    (h : miss "users".data = false) :
    generateUrlPattern miss
        "https://example.com/users/123e4567-e89b-12d3-a456-426614174000"
      = "example.com/users/{uuid}" := by
  rw [generateUrlPattern_parse_eq miss _ "example.com".data
    "/users/123e4567-e89b-12d3-a456-426614174000".data (by decide)]
  rw [show pathSegments "/users/123e4567-e89b-12d3-a456-426614174000".data
    = ["users".data, "123e4567-e89b-12d3-a456-426614174000".data] from by decide]
  have h2 : classifySegment miss "123e4567-e89b-12d3-a456-426614174000".data
      = some "{uuid}".data := rfl
  have hmap : mapOpt (classifySegment miss)
      ["users".data, "123e4567-e89b-12d3-a456-426614174000".data]
      = some ["users".data, "{uuid}".data] := by
    simp only [mapOpt, classifySegment_users miss h, h2]
  rw [hmap]
  decide

theorem uuid_segment_uuid_token_witness :
    missNone "users".data = false ∧
    generateUrlPattern missNone
        "https://example.com/users/123e4567-e89b-12d3-a456-426614174000"
      = "example.com/users/{uuid}" :=
  ⟨by decide, uuid_segment_uuid_token missNone (by decide)⟩




/-- C9: two distinct URL-pattern keys (both reachable as
`generateUrlPattern` outputs) sanitize to the same storage file name, so a
write under one key silently overwrites the record stored under the other;
nothing in the store guards against the collision. -/
theorem sanitize_collision_overwrite :
    generateUrlPattern missNone "https://example.com/posts/tech_news" = patTechNews ∧
    generateUrlPattern missNone "https://example.com/posts_tech/news" = patPostsTech ∧
    patTechNews ≠ patPostsTech ∧
    DiskParserStorage.getParserFileName patTechNews =
      DiskParserStorage.getParserFileName patPostsTech ∧
    DiskParserStorage.get
        (DiskParserStorage.set (DiskParserStorage.set [] patTechNews "P1" 0)
          patPostsTech "P2" 1)
        patTechNews
      = some { urlPattern := patPostsTech, parser := "P2", createdAt := 1 } := by
  exact ⟨by decide, by decide, by decide, by decide, by decide⟩

/-- C10: the disk store's listing slices the raw directory listing to
`limit` entries *before* filtering out non-JSON/index/corrupt files, so it
returns at most `limit` records and every skipped file counts against the
limit — concretely, with ten valid records and one corrupt `.json` file
heading the listing, `getAll _ 10` returns only nine records; the
in-memory store likewise truncates `getAll` to the first 10 entries with
its default limit. -/
theorem getAll_limit_before_filter :
    (∀ (files : DiskParserStorage.Dir) (limit : Nat), limit ≠ 0 →
      (DiskParserStorage.getAll files limit).length ≤ limit) ∧
    DiskParserStorage.getAll dir10 10 =
      [{ urlPattern := "k0", parser := "p", createdAt := 0 },
       { urlPattern := "k1", parser := "p", createdAt := 1 },
       { urlPattern := "k2", parser := "p", createdAt := 2 },
       { urlPattern := "k3", parser := "p", createdAt := 3 },
       { urlPattern := "k4", parser := "p", createdAt := 4 },
       { urlPattern := "k5", parser := "p", createdAt := 5 },
       { urlPattern := "k6", parser := "p", createdAt := 6 },
       { urlPattern := "k7", parser := "p", createdAt := 7 },
       { urlPattern := "k8", parser := "p", createdAt := 8 }] ∧
    (DiskParserStorage.getAll dir10 10).length = 9 ∧
    (dir10.filterMap (fun nc => nc.2)).length = 10 ∧
    (DiskParserStorage.getAll dir10 0).length = 10 ∧
    InMemoryParserStorage.getAll mem11 10 = mem11.take 10 ∧
    (InMemoryParserStorage.getAll mem11 10).length = 10 ∧ mem11.length = 11 := by
  refine ⟨?_, by decide, by decide, by decide, by decide, rfl, by decide, by decide⟩
  intro files limit h
  unfold DiskParserStorage.getAll
  rw [if_pos h]
  calc (List.filterMap _ (files.take limit)).length
      ≤ (files.take limit).length := List.length_filterMap_le _ _
    _ ≤ limit := by rw [List.length_take]; exact Nat.min_le_left _ _

theorem getAll_limit_before_filter_witness :
    (10 : Nat) ≠ 0 ∧ (DiskParserStorage.getAll dir10 10).length ≤ 10 :=
  ⟨by decide, getAll_limit_before_filter.1 dir10 10 (by decide)⟩

/-- A lowercase ASCII letter is not uppercase. -/
theorem isUpper_eq_false_of_isLower {c : Char} (h : c.isLower = true) :
    c.isUpper = false := by
  simp [Char.isLower, UInt32.le_def, BitVec.le_def] at h
  simp [Char.isUpper, UInt32.le_def, BitVec.le_def]
  omega

/-- A capital-boundary split of a string with no further capitals is the
whole string. -/
theorem splitCaps_all_lower (c : Char) (rest : List Char)
    (h : rest.all Char.isLower = true) : splitCaps (c :: rest) = [c :: rest] := by
  induction rest generalizing c with
  | nil => rfl
  | cons d t ih =>
    rw [List.all_cons, Bool.and_eq_true] at h
    have e1 : splitCaps (c :: d :: t) =
        (if d.isUpper then [c] :: splitCaps (d :: t)
          else
            match splitCaps (d :: t) with
            | [] => [[c]]
            | w :: ws => (c :: w) :: ws) := rfl
    rw [e1, isUpper_eq_false_of_isLower h.1, ih d h.2]
    simp

/-- A single-capital-run PascalCase segment splits into exactly itself. -/
theorem splitCaps_inner (cs : List Char) (h : innerPascal cs = true) :
    splitCaps cs = [cs] := by
  cases cs with
  | nil => simp [innerPascal] at h
  | cons c rest =>
    unfold innerPascal at h
    rw [Bool.and_eq_true, Bool.and_eq_true] at h
    exact splitCaps_all_lower c rest h.2

/-- C8, amended: for every splittable segment reaching the
word-likelihood heuristic, the source classifies delimiter-split segments
(`-`, then `_`/`.`) as literal iff every sub-token passes the
word-likelihood test; a single-capital-run PascalCase match splits into
one token and is an id; but a multi-run PascalCase match with no
delimiter is literal *unconditionally* (its capital-split sub-tokens are
never tested, because the split branch checks `/^[A-Z][a-z]+$/` while the
trigger checks `/^([A-Z][a-z]+)+[A-Z]?$/`); the Wikipedia example
`en.wikipedia.org/wiki/Prometheus ↦ en.wikipedia.org/wiki/{id}` holds for
any dictionary recognizing `wiki`. -/
theorem isLikelyId_split_rule (miss : List Char → Bool) (seg d : List Char)
    (hd : decodeURIComponent seg = some d)
    (hprint : d.any nonPrintable = false)
    (h8 : 8 ≤ d.length) (h19 : d.length ≤ 19)
    (hdig : allDigits d = false) (hhex : hexHyphen d = false)
    (hstop : commonPathWords.contains (chStr (lowerList d)) = false)
    (hsplit : (d.contains '-' || outerPascal d || d.contains '_' ||
      d.contains '.') = true) :
    isLikelyId miss seg = some (claimC8RuleAmended miss d) ∧
    (miss "wiki".data = false →
      generateUrlPattern miss "https://en.wikipedia.org/wiki/Prometheus"
        = "en.wikipedia.org/wiki/{id}") := by
  constructor
  · simp only [isLikelyId, hd]
    rw [hprint, hstop]
    simp only [Bool.false_eq_true, if_false]
    rw [if_neg (show ¬ d.length < 8 from by omega)]
    unfold claimC8RuleAmended claimSubTokens
    by_cases hhy : '-' ∈ d
    · simp [hhy]
    · by_cases hu : '_' ∈ d
      · simp [hhy, hu]
      · by_cases hdot : '.' ∈ d
        · simp [hhy, hu, hdot]
        · have hop : outerPascal d = true := by
            simp [hhy, hu, hdot] at hsplit
            exact hsplit
          by_cases hip : innerPascal d = true
          · have hl : splitCaps d = [d] := splitCaps_inner d hip
            simp [hhy, hu, hdot, hop, hip, hl]
          · simp [hhy, hu, hdot, hop, hip]
  · intro hw
    rw [generateUrlPattern_parse_eq miss _ "en.wikipedia.org".data
      "/wiki/Prometheus".data (by decide)]
    rw [show pathSegments "/wiki/Prometheus".data
      = ["wiki".data, "Prometheus".data] from by decide]
    have c1 : classifySegment miss "wiki".data = some "wiki".data := by
      have t1 : classifySegment miss "wiki".data =
          (match isLikelyId miss "wiki".data with
            | none => none
            | some true => some "{id}".data
            | some false => some "wiki".data) := rfl
      have t2 : isLikelyId miss "wiki".data = some (!(!(miss "wiki".data))) := rfl
      rw [t1, t2, hw]
      rfl
    have c2 : classifySegment miss "Prometheus".data = some "{id}".data := rfl
    have hmap : mapOpt (classifySegment miss) ["wiki".data, "Prometheus".data]
        = some ["wiki".data, "{id}".data] := by
      simp only [mapOpt, c1, c2]
    rw [hmap]
    decide

/-- C8, counterexample: the segment `XqzwvXqzwv` is in the claim's scope
(printable, length 8–19, not digits, not hex-and-hyphen, not stop-listed,
splittable as a PascalCase match), and with a dictionary that knows no
words the claim's rule classifies it as an id (its capital-split
sub-tokens fail the word test), yet the source classifies it as a literal
(`isLikelyId` returns `false`). -/
theorem isLikelyId_claim_rule_cex :
    decodeURIComponent "XqzwvXqzwv".data = some "XqzwvXqzwv".data ∧
    "XqzwvXqzwv".data.any nonPrintable = false ∧
    8 ≤ "XqzwvXqzwv".data.length ∧ "XqzwvXqzwv".data.length ≤ 19 ∧
    allDigits "XqzwvXqzwv".data = false ∧ hexHyphen "XqzwvXqzwv".data = false ∧
    commonPathWords.contains (chStr (lowerList "XqzwvXqzwv".data)) = false ∧
    ("XqzwvXqzwv".data.contains '-' || outerPascal "XqzwvXqzwv".data ||
      "XqzwvXqzwv".data.contains '_' || "XqzwvXqzwv".data.contains '.') = true ∧
    claimC8Rule missAll "XqzwvXqzwv".data = true ∧
    isLikelyId missAll "XqzwvXqzwv".data = some false := by decide

theorem isLikelyId_split_rule_witness :
    decodeURIComponent "tech_news".data = some "tech_news".data ∧
    isLikelyId missNone "tech_news".data
      = some (claimC8RuleAmended missNone "tech_news".data) ∧
    generateUrlPattern missNone "https://en.wikipedia.org/wiki/Prometheus"
      = "en.wikipedia.org/wiki/{id}" :=
  ⟨by decide,
    (isLikelyId_split_rule missNone "tech_news".data "tech_news".data (by decide)
      (by decide) (by decide) (by decide) (by decide) (by decide) (by decide)
      (by decide)).1,
    (isLikelyId_split_rule missNone "tech_news".data "tech_news".data (by decide)
      (by decide) (by decide) (by decide) (by decide) (by decide) (by decide)
      (by decide)).2 (by decide)⟩




/-- Element of a successful indexed lookup is a member. -/
theorem memOfGet {l : List α} {i : Nat} {a : α} (h : l[i]? = some a) : a ∈ l := by
  obtain ⟨hl, rfl⟩ := List.getElem?_eq_some.mp h
  exact List.getElem_mem hl

/-- Indexed lookup in a singleton list. -/
theorem getElem?_singleton {a b : α} {p : Nat} (h : ([a])[p]? = some b) :
    p = 0 ∧ b = a := by
  cases p with
  | zero =>
    refine ⟨rfl, ?_⟩
    simp at h
    exact h.symm
  | succ q => simp at h

theorem lookupA_nil (q : String) : lookupA ([] : List (String × α)) q = none := rfl

theorem lookupA_self (q : String) (v : α) (rest : List (String × α)) :
    lookupA ((q, v) :: rest) q = some v := by
  unfold lookupA
  rw [if_pos rfl]

theorem lookupA_insertA_self (m : List (String × α)) (q : String) (v : α) :
    lookupA (insertA m q v) q = some v := by
  induction m with
  | nil => simp [insertA, lookupA]
  | cons kv rest ih =>
    unfold insertA
    by_cases h : kv.1 = q
    · rw [if_pos h]
      exact lookupA_self q v rest
    · rw [if_neg h]
      unfold lookupA
      rw [if_neg h]
      exact ih

theorem eraseA_pair (q : String) (v : α) : eraseA [(q, v)] q = [] := by
  simp [eraseA]

/-- `setPhase` only touches the caller list. -/
theorem setPhase_storage (s : ServiceState) (i : Nat) (ph : CallerPhase) :
    (setPhase s i ph).storage = s.storage := by
  unfold setPhase
  cases s.callers[i]? <;> rfl

theorem setPhase_promises (s : ServiceState) (i : Nat) (ph : CallerPhase) :
    (setPhase s i ph).promises = s.promises := by
  unfold setPhase
  cases s.callers[i]? <;> rfl

theorem setPhase_ongoing (s : ServiceState) (i : Nat) (ph : CallerPhase) :
    (setPhase s i ph).ongoing = s.ongoing := by
  unfold setPhase
  cases s.callers[i]? <;> rfl

theorem setPhase_genCount (s : ServiceState) (i : Nat) (ph : CallerPhase) :
    (setPhase s i ph).genCount = s.genCount := by
  unfold setPhase
  cases s.callers[i]? <;> rfl

theorem setPhase_saveCount (s : ServiceState) (i : Nat) (ph : CallerPhase) :
    (setPhase s i ph).saveCount = s.saveCount := by
  unfold setPhase
  cases s.callers[i]? <;> rfl

theorem setPhase_clock (s : ServiceState) (i : Nat) (ph : CallerPhase) :
    (setPhase s i ph).clock = s.clock := by
  unfold setPhase
  cases s.callers[i]? <;> rfl

theorem setPhase_length (s : ServiceState) (i : Nat) (ph : CallerPhase) :
    (setPhase s i ph).callers.length = s.callers.length := by
  unfold setPhase
  cases s.callers[i]? with
  | none => rfl
  | some c => simp

theorem setPhase_callers {s : ServiceState} {i : Nat} {c : CallerTask}
    (hc : s.callers[i]? = some c) (ph : CallerPhase) :
    (setPhase s i ph).callers = s.callers.set i { c with phase := ph } := by
  unfold setPhase
  rw [hc]

theorem setPhase_getElem {s : ServiceState} {i : Nat} {c : CallerTask}
    (hc : s.callers[i]? = some c) (ph : CallerPhase) (j : Nat) :
    (setPhase s i ph).callers[j]? =
      if i = j then some { c with phase := ph } else s.callers[j]? := by
  obtain ⟨hlt, -⟩ := List.getElem?_eq_some.mp hc
  rw [setPhase_callers hc]
  simp [List.getElem?_set, hlt]



/-- Step equations: one per continuation, under the shape facts enabling it. -/
theorem step_callStart {ctx : ServiceCtx} {s : ServiceState} {i : Nat} {c : CallerTask}
    (hc : s.callers[i]? = some c) (hp : c.phase = .ready)
    (hu : c.url ≠ "") (hh : c.html ≠ "") :
    step ctx s (.callStart i) = setPhase s i (.getWait (generateUrlPattern ctx.miss c.url)) := by
  simp only [step, hc, hp]
  rw [if_neg (by simp [hu, hh])]

theorem step_getRead {ctx : ServiceCtx} {s : ServiceState} {i : Nat} {c : CallerTask}
    {key : String} (hc : s.callers[i]? = some c) (hp : c.phase = .getWait key) :
    step ctx s (.getRead i) = setPhase s i (.getDone key (lookupA s.storage key)) := by
  simp only [step, hc, hp]

theorem step_getCont_hit {ctx : ServiceCtx} {s : ServiceState} {i : Nat} {c : CallerTask}
    {key : String} {sp : StoredParser}
    (hc : s.callers[i]? = some c) (hp : c.phase = .getDone key (some sp)) :
    step ctx s (.getCont i) =
      setPhase s i (.finished (.ok ⟨sp.parser, sp.createdAt, true, key⟩)) := by
  simp only [step, hc, hp]

theorem step_getCont_join {ctx : ServiceCtx} {s : ServiceState} {i : Nat} {c : CallerTask}
    {key : String} {pid : Nat}
    (hc : s.callers[i]? = some c) (hp : c.phase = .getDone key none)
    (ho : lookupA s.ongoing key = some pid) :
    step ctx s (.getCont i) = setPhase s i (.joinWait pid) := by
  simp only [step, hc, hp, ho]

theorem step_getCont_lead {ctx : ServiceCtx} {s : ServiceState} {i : Nat} {c : CallerTask}
    {key : String}
    (hc : s.callers[i]? = some c) (hp : c.phase = .getDone key none)
    (ho : lookupA s.ongoing key = none) :
    step ctx s (.getCont i) =
      { setPhase s i (.leadWait s.promises.length key) with
        promises := s.promises ++ [.genWait key s.genCount],
        genCount := s.genCount + 1,
        ongoing := insertA s.ongoing key s.promises.length } := by
  simp only [step, hc, hp, ho]
  rw [setPhase_promises, setPhase_genCount, setPhase_ongoing]

theorem step_genDone_ok {ctx : ServiceCtx} {s : ServiceState} {p : Nat}
    {key : String} {idx : Nat} {code : String}
    (hpr : s.promises[p]? = some (.genWait key idx)) (hg : ctx.gen idx = .ok code) :
    step ctx s (.genDone p) = { s with promises := s.promises.set p (.setWait key code) } := by
  simp only [step, hpr, hg]

theorem step_genDone_err {ctx : ServiceCtx} {s : ServiceState} {p : Nat}
    {key : String} {idx : Nat} {m : String}
    (hpr : s.promises[p]? = some (.genWait key idx)) (hg : ctx.gen idx = .error m) :
    step ctx s (.genDone p) =
      { s with promises :=
          s.promises.set p (.settled (.error ("Failed to generate parser: " ++ m))) } := by
  simp only [step, hpr, hg]

theorem step_saveDone_ok {ctx : ServiceCtx} {s : ServiceState} {p : Nat}
    {key : String} {code : String}
    (hpr : s.promises[p]? = some (.setWait key code)) (hg : ctx.save s.saveCount = .ok ()) :
    step ctx s (.saveDone p) =
      { s with
        storage := insertA s.storage key
          { urlPattern := key, parser := code, createdAt := s.clock },
        promises := s.promises.set p (.settled (.ok ⟨code, s.clock, false, key⟩)),
        saveCount := s.saveCount + 1,
        clock := s.clock + 1 } := by
  simp only [step, hpr, hg]

theorem step_saveDone_err {ctx : ServiceCtx} {s : ServiceState} {p : Nat}
    {key : String} {code : String} {m : String}
    (hpr : s.promises[p]? = some (.setWait key code)) (hg : ctx.save s.saveCount = .error m) :
    step ctx s (.saveDone p) =
      { s with
        promises := s.promises.set p
          (.settled (.error ("Failed to generate parser: Cannot save parser: " ++ m))),
        saveCount := s.saveCount + 1 } := by
  simp only [step, hpr, hg]

theorem step_resume_join {ctx : ServiceCtx} {s : ServiceState} {i : Nat} {c : CallerTask}
    {pid : Nat} {r : Except String ParserResponse}
    (hc : s.callers[i]? = some c) (hp : c.phase = .joinWait pid)
    (hpr : s.promises[pid]? = some (.settled r)) :
    step ctx s (.resume i) = setPhase s i (.finished r) := by
  simp only [step, hc, hp, hpr]

theorem step_resume_lead {ctx : ServiceCtx} {s : ServiceState} {i : Nat} {c : CallerTask}
    {pid : Nat} {key : String} {r : Except String ParserResponse}
    (hc : s.callers[i]? = some c) (hp : c.phase = .leadWait pid key)
    (hpr : s.promises[pid]? = some (.settled r)) :
    step ctx s (.resume i) =
      { setPhase s i (.finished r) with
        ongoing := eraseA s.ongoing key } := by
  simp only [step, hc, hp, hpr]
  rw [setPhase_ongoing]

/-- Enabled-event inversions. -/
theorem enabled_callStart {s : ServiceState} {i : Nat}
    (h : enabled s (.callStart i) = true) :
    ∃ c, s.callers[i]? = some c ∧ c.phase = .ready := by
  cases hc : s.callers[i]? with
  | none => simp [enabled, hc] at h
  | some c =>
    refine ⟨c, rfl, ?_⟩
    cases hp : c.phase <;> simp [enabled, hc, hp] at h <;> rfl

theorem enabled_getRead {s : ServiceState} {i : Nat}
    (h : enabled s (.getRead i) = true) :
    ∃ c key, s.callers[i]? = some c ∧ c.phase = .getWait key := by
  cases hc : s.callers[i]? with
  | none => simp [enabled, hc] at h
  | some c =>
    cases hp : c.phase <;> simp [enabled, hc, hp] at h
    case getWait key => exact ⟨c, key, rfl, hp⟩

theorem enabled_getCont {s : ServiceState} {i : Nat}
    (h : enabled s (.getCont i) = true) :
    ∃ c key found, s.callers[i]? = some c ∧ c.phase = .getDone key found := by
  cases hc : s.callers[i]? with
  | none => simp [enabled, hc] at h
  | some c =>
    cases hp : c.phase <;> simp [enabled, hc, hp] at h
    case getDone key found => exact ⟨c, key, found, rfl, hp⟩

theorem enabled_genDone {s : ServiceState} {p : Nat}
    (h : enabled s (.genDone p) = true) :
    ∃ key idx, s.promises[p]? = some (.genWait key idx) := by
  cases hpr : s.promises[p]? with
  | none => simp [enabled, hpr] at h
  | some pr =>
    cases hq : pr <;> simp [enabled, hpr, hq] at h
    case genWait key idx => exact ⟨key, idx, rfl⟩

theorem enabled_saveDone {s : ServiceState} {p : Nat}
    (h : enabled s (.saveDone p) = true) :
    ∃ key code, s.promises[p]? = some (.setWait key code) := by
  cases hpr : s.promises[p]? with
  | none => simp [enabled, hpr] at h
  | some pr =>
    cases hq : pr <;> simp [enabled, hpr, hq] at h
    case setWait key code => exact ⟨key, code, rfl⟩

theorem enabled_resume {s : ServiceState} {i : Nat}
    (h : enabled s (.resume i) = true) :
    ∃ c, s.callers[i]? = some c ∧
      ((∃ pid r, c.phase = .joinWait pid ∧ s.promises[pid]? = some (.settled r)) ∨
        (∃ pid key r, c.phase = .leadWait pid key ∧
          s.promises[pid]? = some (.settled r))) := by
  cases hc : s.callers[i]? with
  | none => simp [enabled, hc] at h
  | some c =>
    refine ⟨c, rfl, ?_⟩
    cases hp : c.phase <;> simp [enabled, hc, hp] at h
    case joinWait pid =>
      cases hpr : s.promises[pid]? with
      | none => simp [hpr] at h
      | some pr =>
        cases hq : pr <;> simp [hpr, hq] at h
        case settled r => exact Or.inl ⟨pid, r, rfl, by rw [hpr, hq]⟩
    case leadWait pid key =>
      cases hpr : s.promises[pid]? with
      | none => simp [hpr] at h
      | some pr =>
        cases hq : pr <;> simp [hpr, hq] at h
        case settled r => exact Or.inr ⟨pid, key, r, rfl, by rw [hpr, hq]⟩




/-- `CallersOK` survives a phase update whose new phase satisfies `P`. -/
theorem CallersOK_setPhase {ctx : ServiceCtx} {k : String} {P : CallerPhase → Prop}
    {s : ServiceState} {i : Nat} {c : CallerTask}
    (hok : CallersOK ctx k P s) (hc : s.callers[i]? = some c)
    {ph : CallerPhase} (hp : P ph) :
    CallersOK ctx k P (setPhase s i ph) := by
  intro j c' hj
  rw [setPhase_getElem hc ph j] at hj
  by_cases hij : i = j
  · rw [if_pos hij] at hj
    have hcc := Option.some.inj hj
    subst hcc
    exact ⟨(hok i c hc).1, hp⟩
  · rw [if_neg hij] at hj
    exact hok j c' hj

/-- `CallersOK` is monotone in the phase predicate. -/
theorem CallersOK_mono {ctx : ServiceCtx} {k : String} {P Q : CallerPhase → Prop}
    {s : ServiceState} (hok : CallersOK ctx k P s)
    (himp : ∀ ph, P ph → Q ph) : CallersOK ctx k Q s :=
  fun i c hc => ⟨(hok i c hc).1, himp _ (hok i c hc).2⟩

/-- A phase update to a non-lead phase of a non-lead caller keeps the
unique leader. -/
theorem oneLeader_setPhase_nonlead {k : String} {s : ServiceState} {i : Nat}
    {c : CallerTask} (hc : s.callers[i]? = some c) (hol : oneLeader k s)
    {ph : CallerPhase} (hnl : ph ≠ .leadWait 0 k) (hci : c.phase ≠ .leadWait 0 k) :
    oneLeader k (setPhase s i ph) := by
  obtain ⟨i0, hl0, huniq⟩ := hol
  have hii0 : i ≠ i0 := by
    intro he
    obtain ⟨c0, hc0, hph0⟩ := hl0
    rw [← he, hc] at hc0
    exact hci (by rw [Option.some.inj hc0]; exact hph0)
  refine ⟨i0, ?_, ?_⟩
  · obtain ⟨c0, hc0, hph0⟩ := hl0
    refine ⟨c0, ?_, hph0⟩
    rw [setPhase_getElem hc ph i0, if_neg hii0]
    exact hc0
  · intro j hj
    obtain ⟨cj, hcj, hphj⟩ := hj
    rw [setPhase_getElem hc ph j] at hcj
    by_cases hij : i = j
    · rw [if_pos hij] at hcj
      have := Option.some.inj hcj
      exact absurd (by rw [← this] at hphj; exact hphj) hnl
    · rw [if_neg hij] at hcj
      exact huniq j ⟨cj, hcj, hphj⟩

/-- Registering a leader where none exists yields a unique leader. -/
theorem oneLeader_setPhase_newlead {k : String} {s : ServiceState} {i : Nat}
    {c : CallerTask} (hc : s.callers[i]? = some c)
    (hno : ∀ j, ¬leaderAt k s j) :
    oneLeader k (setPhase s i (.leadWait 0 k)) := by
  refine ⟨i, ⟨{ c with phase := .leadWait 0 k }, ?_, rfl⟩, ?_⟩
  · rw [setPhase_getElem hc _ i, if_pos rfl]
  · intro j hj
    obtain ⟨cj, hcj, hphj⟩ := hj
    rw [setPhase_getElem hc _ j] at hcj
    by_cases hij : i = j
    · exact hij.symm
    · rw [if_neg hij] at hcj
      exact absurd ⟨cj, hcj, hphj⟩ (hno j)

/-- No caller in an early phase is a leader. -/
theorem noLeader_of_early {ctx : ServiceCtx} {k : String} {s : ServiceState}
    (hok : CallersOK ctx k (earlyPh k) s) : ∀ j, ¬leaderAt k s j := by
  intro j hj
  obtain ⟨cj, hcj, hphj⟩ := hj
  rcases (hok j cj hcj).2 with h | h | h <;> rw [hphj] at h <;> cases h

/-- Under `allJoined`, a caller allowed `anyPh` is in fact joined. -/
theorem joined_of_allJoined {k : String} {s : ServiceState}
    (h : allJoined s = true) {i : Nat} {c : CallerTask}
    (hc : s.callers[i]? = some c) (hany : anyPh k c.phase) :
    joinedPh k c.phase := by
  unfold allJoined at h
  rw [List.all_eq_true] at h
  have hb := h c (memOfGet hc)
  rcases hany with (h1 | h1 | h1) | h1 | h1
  · rw [h1] at hb; simp at hb
  · rw [h1] at hb; simp at hb
  · rw [h1] at hb; simp at hb
  · exact Or.inl h1
  · exact Or.inr h1




set_option maxHeartbeats 1000000

theorem joinedPh_postPh {k : String} {r : Except String ParserResponse}
    {ph : CallerPhase} (h : joinedPh k ph) : postPh k r ph :=
  h.elim Or.inl (fun h2 => Or.inr (Or.inl h2))

theorem OutcomeSpec_setPhase {ctx : ServiceCtx} {k : String}
    {st0 : List (String × StoredParser)} {r : Except String ParserResponse}
    {s : ServiceState} {i : Nat} {ph : CallerPhase}
    (h : OutcomeSpec ctx k st0 r s) :
    OutcomeSpec ctx k st0 r (setPhase s i ph) := by
  rcases h with ⟨m, h1, h2, h3, h4, h5⟩ | ⟨cd, h1, h2, h3, h4, h5, h6⟩ |
    ⟨cd, m, h1, h2, h3, h4, h5, h6⟩
  · exact Or.inl ⟨m, h1, h2, by rw [setPhase_storage]; exact h3,
      by rw [setPhase_saveCount]; exact h4, by rw [setPhase_clock]; exact h5⟩
  · exact Or.inr (Or.inl ⟨cd, h1, h2, h3, by rw [setPhase_storage]; exact h4,
      by rw [setPhase_saveCount]; exact h5, by rw [setPhase_clock]; exact h6⟩)
  · exact Or.inr (Or.inr ⟨cd, m, h1, h2, h3, by rw [setPhase_storage]; exact h4,
      by rw [setPhase_saveCount]; exact h5, by rw [setPhase_clock]; exact h6⟩)

theorem batchInv_step {ctx : ServiceCtx} {k : String}
    {st0 : List (String × StoredParser)} {n : Nat} {s : ServiceState}
    {e : ServiceEvent}
    (hk : lookupA st0 k = none)
    (hinv : BatchInv ctx k st0 n s) (hen : enabled s e = true)
    (hjo : ∀ p, e = .genDone p → allJoined s = true) :
    BatchInv ctx k st0 n (step ctx s e) := by
  obtain ⟨hlen, hstage⟩ := hinv
  cases e with
  | callStart i =>
    obtain ⟨c, hc, hp⟩ := enabled_callStart hen
    rcases hstage with hA | hB1 | hB2 | hC | hD
    · obtain ⟨hprs, hon, hg, hsc, hcl, hst, hok⟩ := hA
      obtain ⟨⟨hu, hh, hkey⟩, -⟩ := hok i c hc
      rw [step_callStart hc hp hu hh, hkey]
      refine ⟨by rw [setPhase_length]; exact hlen,
        Or.inl ⟨?_, ?_, ?_, ?_, ?_, ?_, ?_⟩⟩
      · rw [setPhase_promises]; exact hprs
      · rw [setPhase_ongoing]; exact hon
      · rw [setPhase_genCount]; exact hg
      · rw [setPhase_saveCount]; exact hsc
      · rw [setPhase_clock]; exact hcl
      · rw [setPhase_storage]; exact hst
      · exact CallersOK_setPhase hok hc (Or.inr (Or.inl rfl))
    · obtain ⟨hprs, hon, hg, hsc, hcl, hst, hol, hok⟩ := hB1
      obtain ⟨⟨hu, hh, hkey⟩, -⟩ := hok i c hc
      rw [step_callStart hc hp hu hh, hkey]
      refine ⟨by rw [setPhase_length]; exact hlen,
        Or.inr (Or.inl ⟨?_, ?_, ?_, ?_, ?_, ?_, ?_, ?_⟩)⟩
      · rw [setPhase_promises]; exact hprs
      · rw [setPhase_ongoing]; exact hon
      · rw [setPhase_genCount]; exact hg
      · rw [setPhase_saveCount]; exact hsc
      · rw [setPhase_clock]; exact hcl
      · rw [setPhase_storage]; exact hst
      · exact oneLeader_setPhase_nonlead hc hol (by simp) (by rw [hp]; simp)
      · exact CallersOK_setPhase hok hc (Or.inl (Or.inr (Or.inl rfl)))
    · obtain ⟨code, hgen, hprs, hon, hg, hsc, hcl, hst, hol, hok⟩ := hB2
      have hbad := (hok i c hc).2
      rw [hp] at hbad
      rcases hbad with h | h <;> simp at h
    · obtain ⟨r, hprs, hout, hon, hg, hol, hok⟩ := hC
      have hbad := (hok i c hc).2
      rw [hp] at hbad
      rcases hbad with h | h | h <;> simp at h
    · obtain ⟨r, hprs, hout, hon, hg, hnl, hok⟩ := hD
      have hbad := (hok i c hc).2
      rw [hp] at hbad
      rcases hbad with h | h <;> simp at h
  | getRead i =>
    obtain ⟨c, key, hc, hp⟩ := enabled_getRead hen
    rcases hstage with hA | hB1 | hB2 | hC | hD
    · obtain ⟨hprs, hon, hg, hsc, hcl, hst, hok⟩ := hA
      have hph := (hok i c hc).2
      rw [hp] at hph
      rcases hph with h | h | h
      · simp at h
      · have hkk : key = k := by injection h
        subst hkk
        rw [step_getRead hc hp, hst, hk]
        refine ⟨by rw [setPhase_length]; exact hlen,
          Or.inl ⟨?_, ?_, ?_, ?_, ?_, ?_, ?_⟩⟩
        · rw [setPhase_promises]; exact hprs
        · rw [setPhase_ongoing]; exact hon
        · rw [setPhase_genCount]; exact hg
        · rw [setPhase_saveCount]; exact hsc
        · rw [setPhase_clock]; exact hcl
        · rw [setPhase_storage]; exact hst
        · exact CallersOK_setPhase hok hc (Or.inr (Or.inr rfl))
      · simp at h
    · obtain ⟨hprs, hon, hg, hsc, hcl, hst, hol, hok⟩ := hB1
      have hph := (hok i c hc).2
      rw [hp] at hph
      rcases hph with (h | h | h) | h | h
      · simp at h
      · have hkk : key = k := by injection h
        subst hkk
        rw [step_getRead hc hp, hst, hk]
        refine ⟨by rw [setPhase_length]; exact hlen,
          Or.inr (Or.inl ⟨?_, ?_, ?_, ?_, ?_, ?_, ?_, ?_⟩)⟩
        · rw [setPhase_promises]; exact hprs
        · rw [setPhase_ongoing]; exact hon
        · rw [setPhase_genCount]; exact hg
        · rw [setPhase_saveCount]; exact hsc
        · rw [setPhase_clock]; exact hcl
        · rw [setPhase_storage]; exact hst
        · exact oneLeader_setPhase_nonlead hc hol (by simp) (by rw [hp]; simp)
        · exact CallersOK_setPhase hok hc (Or.inl (Or.inr (Or.inr rfl)))
      · simp at h
      · simp at h
      · simp at h
    · obtain ⟨code, hgen, hprs, hon, hg, hsc, hcl, hst, hol, hok⟩ := hB2
      have hbad := (hok i c hc).2
      rw [hp] at hbad
      rcases hbad with h | h <;> simp at h
    · obtain ⟨r, hprs, hout, hon, hg, hol, hok⟩ := hC
      have hbad := (hok i c hc).2
      rw [hp] at hbad
      rcases hbad with h | h | h <;> simp at h
    · obtain ⟨r, hprs, hout, hon, hg, hnl, hok⟩ := hD
      have hbad := (hok i c hc).2
      rw [hp] at hbad
      rcases hbad with h | h <;> simp at h
  | getCont i =>
    obtain ⟨c, key, found, hc, hp⟩ := enabled_getCont hen
    rcases hstage with hA | hB1 | hB2 | hC | hD
    · obtain ⟨hprs, hon, hg, hsc, hcl, hst, hok⟩ := hA
      have hph := (hok i c hc).2
      rw [hp] at hph
      rcases hph with h | h | h
      · simp at h
      · simp at h
      · obtain ⟨hkk, hff⟩ : key = k ∧ found = none := by simpa using h
        subst hff
        rw [hkk] at hp
        have ho : lookupA s.ongoing k = none := by rw [hon]; rfl
        have hlen0 : s.promises.length = 0 := by rw [hprs]; rfl
        rw [step_getCont_lead hc hp ho, hlen0]
        have hok3 : CallersOK ctx k (anyPh k) s :=
          CallersOK_mono hok (fun ph hph2 => Or.inl hph2)
        have hok2 : CallersOK ctx k (anyPh k) (setPhase s i (.leadWait 0 k)) :=
          CallersOK_setPhase hok3 hc (Or.inr (Or.inr rfl))
        have hol2 : oneLeader k (setPhase s i (.leadWait 0 k)) :=
          oneLeader_setPhase_newlead hc (noLeader_of_early hok)
        have hlen2 : (setPhase s i (.leadWait 0 k)).callers.length = n := by
          rw [setPhase_length]; exact hlen
        refine ⟨hlen2, Or.inr (Or.inl ⟨?_, ?_, ?_, ?_, ?_, ?_, hol2, hok2⟩)⟩
        · show s.promises ++ [.genWait k s.genCount] = [.genWait k 0]
          rw [hprs, hg]
          rfl
        · show insertA s.ongoing k 0 = [(k, 0)]
          rw [hon]
          rfl
        · show s.genCount + 1 = 1
          rw [hg]
        · show (setPhase s i (.leadWait 0 k)).saveCount = 0
          rw [setPhase_saveCount]; exact hsc
        · show (setPhase s i (.leadWait 0 k)).clock = 0
          rw [setPhase_clock]; exact hcl
        · show (setPhase s i (.leadWait 0 k)).storage = st0
          rw [setPhase_storage]; exact hst
    · obtain ⟨hprs, hon, hg, hsc, hcl, hst, hol, hok⟩ := hB1
      have hph := (hok i c hc).2
      rw [hp] at hph
      rcases hph with (h | h | h) | h | h
      · simp at h
      · simp at h
      · obtain ⟨hkk, hff⟩ : key = k ∧ found = none := by simpa using h
        subst hff
        rw [hkk] at hp
        have ho : lookupA s.ongoing k = some 0 := by
          rw [hon]
          exact lookupA_self k 0 []
        rw [step_getCont_join hc hp ho]
        refine ⟨by rw [setPhase_length]; exact hlen,
          Or.inr (Or.inl ⟨?_, ?_, ?_, ?_, ?_, ?_, ?_, ?_⟩)⟩
        · rw [setPhase_promises]; exact hprs
        · rw [setPhase_ongoing]; exact hon
        · rw [setPhase_genCount]; exact hg
        · rw [setPhase_saveCount]; exact hsc
        · rw [setPhase_clock]; exact hcl
        · rw [setPhase_storage]; exact hst
        · exact oneLeader_setPhase_nonlead hc hol (by simp) (by rw [hp]; simp)
        · exact CallersOK_setPhase hok hc (Or.inr (Or.inl rfl))
      · simp at h
      · simp at h
    · obtain ⟨code, hgen, hprs, hon, hg, hsc, hcl, hst, hol, hok⟩ := hB2
      have hbad := (hok i c hc).2
      rw [hp] at hbad
      rcases hbad with h | h <;> simp at h
    · obtain ⟨r, hprs, hout, hon, hg, hol, hok⟩ := hC
      have hbad := (hok i c hc).2
      rw [hp] at hbad
      rcases hbad with h | h | h <;> simp at h
    · obtain ⟨r, hprs, hout, hon, hg, hnl, hok⟩ := hD
      have hbad := (hok i c hc).2
      rw [hp] at hbad
      rcases hbad with h | h <;> simp at h
  | genDone p =>
    obtain ⟨key, idx, hpr⟩ := enabled_genDone hen
    have hall : allJoined s = true := hjo p rfl
    rcases hstage with hA | hB1 | hB2 | hC | hD
    · obtain ⟨hprs, hon, hg, hsc, hcl, hst, hok⟩ := hA
      rw [hprs] at hpr
      simp at hpr
    · obtain ⟨hprs, hon, hg, hsc, hcl, hst, hol, hok⟩ := hB1
      rw [hprs] at hpr
      obtain ⟨hp0, heq⟩ := getElem?_singleton hpr
      obtain ⟨hkk, hii⟩ : key = k ∧ idx = 0 := by simpa using heq
      subst hp0
      have hokj : CallersOK ctx k (joinedPh k) s := fun j c hc =>
        ⟨(hok j c hc).1, joined_of_allJoined hall hc (hok j c hc).2⟩
      cases hgen : ctx.gen 0 with
      | ok code =>
        have hpr2 : s.promises[0]? = some (.genWait k 0) := by rw [hprs]; rfl
        rw [step_genDone_ok hpr2 hgen]
        refine ⟨hlen, Or.inr (Or.inr (Or.inl
          ⟨code, hgen, ?_, hon, hg, hsc, hcl, hst, hol, hokj⟩))⟩
        rw [hprs]
        rfl
      | error m =>
        have hpr2 : s.promises[0]? = some (.genWait k 0) := by rw [hprs]; rfl
        rw [step_genDone_err hpr2 hgen]
        refine ⟨hlen, Or.inr (Or.inr (Or.inr (Or.inl
          ⟨.error ("Failed to generate parser: " ++ m), ?_,
            Or.inl ⟨m, hgen, rfl, hst, hsc, hcl⟩, hon, hg, hol, ?_⟩)))⟩
        · rw [hprs]
          rfl
        · exact CallersOK_mono hokj (fun ph hph => joinedPh_postPh hph)
    · obtain ⟨code, hgen, hprs, hon, hg, hsc, hcl, hst, hol, hok⟩ := hB2
      rw [hprs] at hpr
      obtain ⟨hp0, heq⟩ := getElem?_singleton hpr
      simp at heq
    · obtain ⟨r, hprs, hout, hon, hg, hol, hok⟩ := hC
      rw [hprs] at hpr
      obtain ⟨hp0, heq⟩ := getElem?_singleton hpr
      simp at heq
    · obtain ⟨r, hprs, hout, hon, hg, hnl, hok⟩ := hD
      rw [hprs] at hpr
      obtain ⟨hp0, heq⟩ := getElem?_singleton hpr
      simp at heq
  | saveDone p =>
    obtain ⟨key, code, hpr⟩ := enabled_saveDone hen
    rcases hstage with hA | hB1 | hB2 | hC | hD
    · obtain ⟨hprs, hon, hg, hsc, hcl, hst, hok⟩ := hA
      rw [hprs] at hpr
      simp at hpr
    · obtain ⟨hprs, hon, hg, hsc, hcl, hst, hol, hok⟩ := hB1
      rw [hprs] at hpr
      obtain ⟨hp0, heq⟩ := getElem?_singleton hpr
      simp at heq
    · obtain ⟨code0, hgen, hprs, hon, hg, hsc, hcl, hst, hol, hok⟩ := hB2
      rw [hprs] at hpr
      obtain ⟨hp0, heq⟩ := getElem?_singleton hpr
      subst hp0
      have hpr2 : s.promises[0]? = some (.setWait k code0) := by rw [hprs]; rfl
      cases hsave : ctx.save 0 with
      | ok u =>
        cases u
        have hsave2 : ctx.save s.saveCount = .ok () := by rw [hsc]; exact hsave
        rw [step_saveDone_ok hpr2 hsave2]
        refine ⟨hlen, Or.inr (Or.inr (Or.inr (Or.inl
          ⟨.ok ⟨code0, 0, false, k⟩, ?_,
            Or.inr (Or.inl ⟨code0, hgen, hsave, rfl, ?_, ?_, ?_⟩), hon, hg, hol, ?_⟩)))⟩
        · show s.promises.set 0 (.settled (.ok ⟨code0, s.clock, false, k⟩)) = _
          rw [hprs, hcl]
          rfl
        · show insertA s.storage k { urlPattern := k, parser := code0, createdAt := s.clock } = _
          rw [hst, hcl]
        · show s.saveCount + 1 = 1
          rw [hsc]
        · show s.clock + 1 = 1
          rw [hcl]
        · exact CallersOK_mono hok (fun ph hph => joinedPh_postPh hph)
      | error m =>
        have hsave2 : ctx.save s.saveCount = .error m := by rw [hsc]; exact hsave
        rw [step_saveDone_err hpr2 hsave2]
        refine ⟨hlen, Or.inr (Or.inr (Or.inr (Or.inl
          ⟨.error ("Failed to generate parser: Cannot save parser: " ++ m), ?_,
            Or.inr (Or.inr ⟨code0, m, hgen, hsave, rfl, hst, ?_, hcl⟩), hon, hg, hol, ?_⟩)))⟩
        · rw [hprs]
          rfl
        · show s.saveCount + 1 = 1
          rw [hsc]
        · exact CallersOK_mono hok (fun ph hph => joinedPh_postPh hph)
    · obtain ⟨r, hprs, hout, hon, hg, hol, hok⟩ := hC
      rw [hprs] at hpr
      obtain ⟨hp0, heq⟩ := getElem?_singleton hpr
      simp at heq
    · obtain ⟨r, hprs, hout, hon, hg, hnl, hok⟩ := hD
      rw [hprs] at hpr
      obtain ⟨hp0, heq⟩ := getElem?_singleton hpr
      simp at heq
  | resume i =>
    obtain ⟨c, hc, hor⟩ := enabled_resume hen
    rcases hstage with hA | hB1 | hB2 | hC | hD
    · obtain ⟨hprs, hon, hg, hsc, hcl, hst, hok⟩ := hA
      have hph := (hok i c hc).2
      rcases hor with ⟨pid, r2, hp, hpr⟩ | ⟨pid, key, r2, hp, hpr⟩ <;>
        rw [hp] at hph <;> rcases hph with h | h | h <;> simp at h
    · obtain ⟨hprs, hon, hg, hsc, hcl, hst, hol, hok⟩ := hB1
      rcases hor with ⟨pid, r2, hp, hpr⟩ | ⟨pid, key, r2, hp, hpr⟩
      · have hph := (hok i c hc).2
        rw [hp] at hph
        rcases hph with (h | h | h) | h | h
        · simp at h
        · simp at h
        · simp at h
        · have hp0 : pid = 0 := by simpa using h
          rw [hp0, hprs] at hpr
          simp at hpr
        · simp at h
      · have hph := (hok i c hc).2
        rw [hp] at hph
        rcases hph with (h | h | h) | h | h
        · simp at h
        · simp at h
        · simp at h
        · simp at h
        · obtain ⟨hp0, hkk⟩ : pid = 0 ∧ key = k := by simpa using h
          rw [hp0, hprs] at hpr
          simp at hpr
    · obtain ⟨code0, hgen, hprs, hon, hg, hsc, hcl, hst, hol, hok⟩ := hB2
      rcases hor with ⟨pid, r2, hp, hpr⟩ | ⟨pid, key, r2, hp, hpr⟩
      · have hph := (hok i c hc).2
        rw [hp] at hph
        rcases hph with h | h
        · have hp0 : pid = 0 := by simpa using h
          rw [hp0, hprs] at hpr
          simp at hpr
        · simp at h
      · have hph := (hok i c hc).2
        rw [hp] at hph
        rcases hph with h | h
        · simp at h
        · obtain ⟨hp0, hkk⟩ : pid = 0 ∧ key = k := by simpa using h
          rw [hp0, hprs] at hpr
          simp at hpr
    · obtain ⟨r, hprs, hout, hon, hg, hol, hok⟩ := hC
      rcases hor with ⟨pid, r2, hp, hpr⟩ | ⟨pid, key, r2, hp, hpr⟩
      · have hph := (hok i c hc).2
        rw [hp] at hph
        rcases hph with h | h | h
        · have hp0 : pid = 0 := by simpa using h
          have hrr : r2 = r := by
            have h2 := hpr
            rw [hp0, hprs] at h2
            simpa using (getElem?_singleton h2).2
          rw [step_resume_join hc hp hpr, hrr]
          refine ⟨by rw [setPhase_length]; exact hlen,
            Or.inr (Or.inr (Or.inr (Or.inl ⟨r, ?_, OutcomeSpec_setPhase hout,
              ?_, ?_, ?_, ?_⟩)))⟩
          · rw [setPhase_promises]; exact hprs
          · rw [setPhase_ongoing]; exact hon
          · rw [setPhase_genCount]; exact hg
          · exact oneLeader_setPhase_nonlead hc hol (by simp) (by rw [hp]; simp)
          · exact CallersOK_setPhase hok hc (Or.inr (Or.inr rfl))
        · simp at h
        · simp at h
      · have hph := (hok i c hc).2
        rw [hp] at hph
        rcases hph with h | h | h
        · simp at h
        · obtain ⟨hp0, hkk⟩ : pid = 0 ∧ key = k := by simpa using h
          have hrr : r2 = r := by
            have h2 := hpr
            rw [hp0, hprs] at h2
            simpa using (getElem?_singleton h2).2
          rw [hp0, hkk] at hp
          rw [hp0] at hpr
          have hleadi : leaderAt k s i := ⟨c, hc, hp⟩
          obtain ⟨i0, hl0, huniq⟩ := hol
          have hii0 : i = i0 := huniq i hleadi
          rw [step_resume_lead hc hp hpr, hrr]
          have hnolead : ∀ j, ¬leaderAt k (setPhase s i (.finished r)) j := by
            intro j hj
            obtain ⟨cj, hcj, hphj⟩ := hj
            rw [setPhase_getElem hc _ j] at hcj
            by_cases hij : i = j
            · rw [if_pos hij] at hcj
              have := Option.some.inj hcj
              rw [← this] at hphj
              simp at hphj
            · rw [if_neg hij] at hcj
              exact absurd ((huniq j ⟨cj, hcj, hphj⟩).trans hii0.symm).symm hij
          have hokD : CallersOK ctx k (donePh r) (setPhase s i (.finished r)) := by
            intro j cj hcj
            rw [setPhase_getElem hc _ j] at hcj
            by_cases hij : i = j
            · rw [if_pos hij] at hcj
              have := Option.some.inj hcj
              subst this
              exact ⟨(hok i c hc).1, Or.inr rfl⟩
            · rw [if_neg hij] at hcj
              refine ⟨(hok j cj hcj).1, ?_⟩
              rcases (hok j cj hcj).2 with h2 | h2 | h2
              · exact Or.inl h2
              · exact absurd ((huniq j ⟨cj, hcj, h2⟩).trans hii0.symm).symm hij
              · exact Or.inr h2
          refine ⟨by rw [setPhase_length]; exact hlen,
            Or.inr (Or.inr (Or.inr (Or.inr ⟨r, ?_, OutcomeSpec_setPhase hout,
              ?_, ?_, hnolead, hokD⟩)))⟩
          · show (setPhase s i (.finished r)).promises = [.settled r]
            rw [setPhase_promises]; exact hprs
          · show eraseA s.ongoing k = []
            rw [hon]
            exact eraseA_pair k 0
          · show (setPhase s i (.finished r)).genCount = 1
            rw [setPhase_genCount]; exact hg
        · simp at h
    · obtain ⟨r, hprs, hout, hon, hg, hnl, hok⟩ := hD
      rcases hor with ⟨pid, r2, hp, hpr⟩ | ⟨pid, key, r2, hp, hpr⟩
      · have hph := (hok i c hc).2
        rw [hp] at hph
        rcases hph with h | h
        · have hp0 : pid = 0 := by simpa using h
          have hrr : r2 = r := by
            have h2 := hpr
            rw [hp0, hprs] at h2
            simpa using (getElem?_singleton h2).2
          rw [step_resume_join hc hp hpr, hrr]
          have hnolead : ∀ j, ¬leaderAt k (setPhase s i (.finished r)) j := by
            intro j hj
            obtain ⟨cj, hcj, hphj⟩ := hj
            rw [setPhase_getElem hc _ j] at hcj
            by_cases hij : i = j
            · rw [if_pos hij] at hcj
              have := Option.some.inj hcj
              rw [← this] at hphj
              simp at hphj
            · rw [if_neg hij] at hcj
              exact hnl j ⟨cj, hcj, hphj⟩
          refine ⟨by rw [setPhase_length]; exact hlen,
            Or.inr (Or.inr (Or.inr (Or.inr ⟨r, ?_, OutcomeSpec_setPhase hout,
              ?_, ?_, hnolead, ?_⟩)))⟩
          · rw [setPhase_promises]; exact hprs
          · rw [setPhase_ongoing]; exact hon
          · rw [setPhase_genCount]; exact hg
          · exact CallersOK_setPhase hok hc (Or.inr rfl)
        · simp at h
      · have hph := (hok i c hc).2
        rw [hp] at hph
        rcases hph with h | h <;> simp at h


theorem batchInv_run {ctx : ServiceCtx} {k : String}
    {st0 : List (String × StoredParser)} {n : Nat}
    (hk : lookupA st0 k = none) :
    ∀ (evs : List ServiceEvent) (s s2 : ServiceState),
      BatchInv ctx k st0 n s → runService ctx s evs = some s2 →
      coalesced ctx s evs = true → BatchInv ctx k st0 n s2 := by
  intro evs
  induction evs with
  | nil =>
    intro s s2 hinv hrun hco
    rw [runService] at hrun
    rw [← Option.some.inj hrun]
    exact hinv
  | cons e evs ih =>
    intro s s2 hinv hrun hco
    rw [runService] at hrun
    by_cases hen : enabled s e = true
    · rw [if_pos hen] at hrun
      have hco2 := hco
      rw [coalesced, Bool.and_eq_true] at hco2
      have hjo : ∀ p, e = .genDone p → allJoined s = true := by
        intro p hep
        have h1 := hco2.1
        rw [hep] at h1
        simpa [isGenDone] using h1
      exact ih _ _ (batchInv_step hk hinv hen hjo) hrun hco2.2
    · rw [if_neg hen] at hrun
      cases hrun

theorem batchInv_init {ctx : ServiceCtx} {k : String}
    {st0 : List (String × StoredParser)} (cs : List CallerTask)
    (hcs : ∀ c ∈ cs, c.phase = .ready ∧ c.url ≠ "" ∧ c.html ≠ "" ∧
      generateUrlPattern ctx.miss c.url = k) :
    BatchInv ctx k st0 cs.length (initState cs st0) := by
  refine ⟨rfl, Or.inl ⟨rfl, rfl, rfl, rfl, rfl, rfl, ?_⟩⟩
  intro i c hc
  obtain ⟨h1, h2, h3, h4⟩ := hcs c (memOfGet hc)
  exact ⟨⟨h2, h3, h4⟩, Or.inl h1⟩

/-- Characterization of any complete coalesced batch run: the single
promise settled with the outcome determined by generator and store, the
registration cleared, the generator invoked exactly once, and every
caller finished with that same settled result. -/
theorem batchFinal {ctx : ServiceCtx} {k : String}
    {st0 : List (String × StoredParser)} {cs : List CallerTask}
    {evs : List ServiceEvent} {s2 : ServiceState}
    (hk : lookupA st0 k = none) (hn : 1 ≤ cs.length)
    (hcs : ∀ c ∈ cs, c.phase = .ready ∧ c.url ≠ "" ∧ c.html ≠ "" ∧
      generateUrlPattern ctx.miss c.url = k)
    (hrun : runService ctx (initState cs st0) evs = some s2)
    (hco : coalesced ctx (initState cs st0) evs = true)
    (hfin : allFinished s2 = true) :
    ∃ r, s2.promises = [.settled r] ∧ OutcomeSpec ctx k st0 r s2 ∧
      s2.ongoing = [] ∧ s2.genCount = 1 ∧ s2.callers.length = cs.length ∧
      ∀ (i : Nat) (c : CallerTask), s2.callers[i]? = some c →
        c.phase = .finished r := by
  obtain ⟨hlen, hstage⟩ :=
    batchInv_run hk evs _ s2 (batchInv_init cs hcs) hrun hco
  rw [allFinished, List.all_eq_true] at hfin
  rcases hstage with hA | hB1 | hB2 | hC | hD
  · obtain ⟨hprs, hon, hg, hsc, hcl, hst, hok⟩ := hA
    have hpos : 0 < s2.callers.length := by omega
    obtain ⟨c, hcm⟩ := List.exists_mem_of_length_pos hpos
    obtain ⟨i, hci⟩ := List.getElem?_of_mem hcm
    have hb := hfin c hcm
    rcases (hok i c hci).2 with h | h | h <;> rw [h] at hb <;> simp at hb
  · obtain ⟨hprs, hon, hg, hsc, hcl, hst, ⟨i0, ⟨c0, hc0, hph0⟩, -⟩, hok⟩ := hB1
    have hb := hfin c0 (memOfGet hc0)
    rw [hph0] at hb
    simp at hb
  · obtain ⟨code, hgen, hprs, hon, hg, hsc, hcl, hst,
      ⟨i0, ⟨c0, hc0, hph0⟩, -⟩, hok⟩ := hB2
    have hb := hfin c0 (memOfGet hc0)
    rw [hph0] at hb
    simp at hb
  · obtain ⟨r, hprs, hout, hon, hg, ⟨i0, ⟨c0, hc0, hph0⟩, -⟩, hok⟩ := hC
    have hb := hfin c0 (memOfGet hc0)
    rw [hph0] at hb
    simp at hb
  · obtain ⟨r, hprs, hout, hon, hg, hnl, hok⟩ := hD
    refine ⟨r, hprs, hout, hon, hg, hlen, ?_⟩
    intro i c hci
    rcases (hok i c hci).2 with h | h
    · have hb := hfin c (memOfGet hci)
      rw [h] at hb
      simp at hb
    · exact h


/-- From any quiescent state whose store and in-flight table lack `k`, a
fresh caller's three continuations run the miss branch and invoke the
generator anew (one more invocation, a new pending promise). -/
theorem fresh_caller_regenerates {ctx : ServiceCtx} {k : String}
    {s2 : ServiceState} {nc : CallerTask}
    (hnc : nc.phase = .ready ∧ nc.url ≠ "" ∧ nc.html ≠ "" ∧
      generateUrlPattern ctx.miss nc.url = k)
    (hstore : lookupA s2.storage k = none)
    (hong : lookupA s2.ongoing k = none) :
    ∃ s3, runService ctx { s2 with callers := s2.callers ++ [nc] }
        [.callStart s2.callers.length, .getRead s2.callers.length,
          .getCont s2.callers.length] = some s3 ∧
      s3.genCount = s2.genCount + 1 ∧
      s3.promises = s2.promises ++ [.genWait k s2.genCount] := by
  obtain ⟨hph, hu, hh, hkey⟩ := hnc
  have hc0 : ({ s2 with callers := s2.callers ++ [nc] } :
      ServiceState).callers[s2.callers.length]? = some nc :=
    List.getElem?_concat_length _ _
  have hen1 : enabled { s2 with callers := s2.callers ++ [nc] }
      (.callStart s2.callers.length) = true := by
    simp [enabled, hc0, hph]
  have hstep1 : step ctx { s2 with callers := s2.callers ++ [nc] }
      (.callStart s2.callers.length) =
      setPhase { s2 with callers := s2.callers ++ [nc] }
        s2.callers.length (.getWait k) := by
    rw [step_callStart hc0 hph hu hh, hkey]
  have hc1 : (setPhase { s2 with callers := s2.callers ++ [nc] }
      s2.callers.length (.getWait k)).callers[s2.callers.length]? =
      some { nc with phase := .getWait k } := by
    rw [setPhase_getElem hc0 _ _, if_pos rfl]
  have hen2 : enabled (setPhase { s2 with callers := s2.callers ++ [nc] }
      s2.callers.length (.getWait k)) (.getRead s2.callers.length) = true := by
    simp [enabled, hc1]
  have hst1 : lookupA (setPhase { s2 with callers := s2.callers ++ [nc] }
      s2.callers.length (.getWait k)).storage k = none := by
    rw [setPhase_storage]
    exact hstore
  have hstep2 : step ctx (setPhase { s2 with callers := s2.callers ++ [nc] }
      s2.callers.length (.getWait k)) (.getRead s2.callers.length) =
      setPhase (setPhase { s2 with callers := s2.callers ++ [nc] }
        s2.callers.length (.getWait k)) s2.callers.length (.getDone k none) := by
    rw [step_getRead hc1 rfl, hst1]
  have hc2 : (setPhase (setPhase { s2 with callers := s2.callers ++ [nc] }
      s2.callers.length (.getWait k)) s2.callers.length
      (.getDone k none)).callers[s2.callers.length]? =
      some { nc with phase := .getDone k none } := by
    rw [setPhase_getElem hc1 _ _, if_pos rfl]
  have hen3 : enabled (setPhase (setPhase { s2 with callers := s2.callers ++ [nc] }
      s2.callers.length (.getWait k)) s2.callers.length (.getDone k none))
      (.getCont s2.callers.length) = true := by
    simp [enabled, hc2]
  have ho2 : lookupA (setPhase (setPhase { s2 with callers := s2.callers ++ [nc] }
      s2.callers.length (.getWait k)) s2.callers.length
      (.getDone k none)).ongoing k = none := by
    rw [setPhase_ongoing, setPhase_ongoing]
    exact hong
  have hstep3 := @step_getCont_lead ctx _ _ _ _ hc2 rfl ho2
  refine ⟨step ctx (setPhase (setPhase { s2 with callers := s2.callers ++ [nc] }
    s2.callers.length (.getWait k)) s2.callers.length (.getDone k none))
    (.getCont s2.callers.length), ?_, ?_, ?_⟩
  · rw [runService, if_pos hen1, hstep1, runService, if_pos hen2, hstep2,
      runService, if_pos hen3, runService]
  · rw [hstep3]
    show (setPhase _ _ _).genCount + 1 = s2.genCount + 1
    rw [setPhase_genCount, setPhase_genCount]
  · rw [hstep3]
    show (setPhase _ _ _).promises ++
        [.genWait k (setPhase _ _ _).genCount] = _
    rw [setPhase_promises, setPhase_promises, setPhase_genCount, setPhase_genCount]


theorem hitInv_step {ctx : ServiceCtx} {k : String} {s1 : ServiceState}
    {e0 : StoredParser} {nc : CallerTask} {s : ServiceState} {ev : ServiceEvent}
    (hset : ∀ pr ∈ s1.promises, ∃ rr, pr = .settled rr)
    (hstore : lookupA s1.storage k = some e0)
    (hnc : nc.url ≠ "" ∧ nc.html ≠ "" ∧ generateUrlPattern ctx.miss nc.url = k)
    (hinv : HitInv k s1 e0 nc s) (hen : enabled s ev = true) :
    HitInv k s1 e0 nc (step ctx s ev) := by
  obtain ⟨hst, hprs, hg, hon, hlen, hoth, cn, hcn, hu, hhh, hph⟩ := hinv
  cases ev with
  | callStart i =>
    obtain ⟨c, hc, hp⟩ := enabled_callStart hen
    by_cases hin : i = s1.callers.length
    · rw [← hin] at hcn
      have hcc := Option.some.inj (hcn ▸ hc)
      have hstep : step ctx s (.callStart i) = setPhase s i (.getWait k) := by
        rw [step_callStart hc hp (by rw [← hcc, hu]; exact hnc.1)
          (by rw [← hcc, hhh]; exact hnc.2.1)]
        rw [← hcc, hu, hnc.2.2]
      rw [hstep]
      refine ⟨by rw [setPhase_storage]; exact hst,
        by rw [setPhase_promises]; exact hprs,
        by rw [setPhase_genCount]; exact hg,
        by rw [setPhase_ongoing]; exact hon,
        by rw [setPhase_length]; exact hlen, ?_,
        { c with phase := .getWait k }, ?_, by rw [← hcc, hu],
        by rw [← hcc, hhh], Or.inr (Or.inl rfl)⟩
      · intro j cj hj hcj
        rw [setPhase_getElem hc _ j,
          if_neg (fun he => hj (by rw [← he, hin]))] at hcj
        exact hoth j cj hj hcj
      · rw [setPhase_getElem hc _ _, if_pos hin]
    · obtain ⟨r, hfr⟩ := hoth i c hin hc
      rw [hp] at hfr
      simp at hfr
  | getRead i =>
    obtain ⟨c, key, hc, hp⟩ := enabled_getRead hen
    by_cases hin : i = s1.callers.length
    · rw [← hin] at hcn
      have hcc := Option.some.inj (hcn ▸ hc)
      rw [hcc] at hph
      rw [hp] at hph
      rcases hph with h | h | h | h
      · simp at h
      · have hkk : key = k := by simpa using h
        subst hkk
        have hlook : lookupA s.storage key = some e0 := by rw [hst]; exact hstore
        have hstep : step ctx s (.getRead i) =
            setPhase s i (.getDone key (some e0)) := by
          rw [step_getRead hc hp, hlook]
        rw [hstep]
        refine ⟨by rw [setPhase_storage]; exact hst,
          by rw [setPhase_promises]; exact hprs,
          by rw [setPhase_genCount]; exact hg,
          by rw [setPhase_ongoing]; exact hon,
          by rw [setPhase_length]; exact hlen, ?_,
          { c with phase := .getDone key (some e0) }, ?_,
          by rw [← hcc, hu], by rw [← hcc, hhh],
          Or.inr (Or.inr (Or.inl rfl))⟩
        · intro j cj hj hcj
          rw [setPhase_getElem hc _ j,
            if_neg (fun he => hj (by rw [← he, hin]))] at hcj
          exact hoth j cj hj hcj
        · rw [setPhase_getElem hc _ _, if_pos hin]
      · simp at h
      · simp at h
    · obtain ⟨r, hfr⟩ := hoth i c hin hc
      rw [hp] at hfr
      simp at hfr
  | getCont i =>
    obtain ⟨c, key, found, hc, hp⟩ := enabled_getCont hen
    by_cases hin : i = s1.callers.length
    · rw [← hin] at hcn
      have hcc := Option.some.inj (hcn ▸ hc)
      rw [hcc] at hph
      rw [hp] at hph
      rcases hph with h | h | h | h
      · simp at h
      · simp at h
      · obtain ⟨hkk, hff⟩ : key = k ∧ found = some e0 := by simpa using h
        subst hkk
        subst hff
        rw [step_getCont_hit hc hp]
        refine ⟨by rw [setPhase_storage]; exact hst,
          by rw [setPhase_promises]; exact hprs,
          by rw [setPhase_genCount]; exact hg,
          by rw [setPhase_ongoing]; exact hon,
          by rw [setPhase_length]; exact hlen, ?_,
          { c with phase := .finished (.ok ⟨e0.parser, e0.createdAt, true, key⟩) },
          ?_, by rw [← hcc, hu], by rw [← hcc, hhh],
          Or.inr (Or.inr (Or.inr rfl))⟩
        · intro j cj hj hcj
          rw [setPhase_getElem hc _ j,
            if_neg (fun he => hj (by rw [← he, hin]))] at hcj
          exact hoth j cj hj hcj
        · rw [setPhase_getElem hc _ _, if_pos hin]
      · simp at h
    · obtain ⟨r, hfr⟩ := hoth i c hin hc
      rw [hp] at hfr
      simp at hfr
  | genDone p =>
    obtain ⟨key, idx, hpr⟩ := enabled_genDone hen
    rw [hprs] at hpr
    obtain ⟨rr, heq⟩ := hset _ (memOfGet hpr)
    simp at heq
  | saveDone p =>
    obtain ⟨key, code, hpr⟩ := enabled_saveDone hen
    rw [hprs] at hpr
    obtain ⟨rr, heq⟩ := hset _ (memOfGet hpr)
    simp at heq
  | resume i =>
    obtain ⟨c, hc, hor⟩ := enabled_resume hen
    by_cases hin : i = s1.callers.length
    · rw [← hin] at hcn
      have hcc := Option.some.inj (hcn ▸ hc)
      rw [hcc] at hph
      rcases hor with ⟨pid, r2, hp, hpr⟩ | ⟨pid, key, r2, hp, hpr⟩ <;>
        rw [hp] at hph <;> rcases hph with h | h | h | h <;> simp at h
    · obtain ⟨r, hfr⟩ := hoth i c hin hc
      rcases hor with ⟨pid, r2, hp, hpr⟩ | ⟨pid, key, r2, hp, hpr⟩ <;>
        rw [hp] at hfr <;> simp at hfr

theorem hitInv_run {ctx : ServiceCtx} {k : String} {s1 : ServiceState}
    {e0 : StoredParser} {nc : CallerTask}
    (hset : ∀ pr ∈ s1.promises, ∃ rr, pr = .settled rr)
    (hstore : lookupA s1.storage k = some e0)
    (hnc : nc.url ≠ "" ∧ nc.html ≠ "" ∧ generateUrlPattern ctx.miss nc.url = k) :
    ∀ (evs : List ServiceEvent) (s s3 : ServiceState),
      HitInv k s1 e0 nc s → runService ctx s evs = some s3 →
      HitInv k s1 e0 nc s3 := by
  intro evs
  induction evs with
  | nil =>
    intro s s3 hinv hrun
    rw [runService] at hrun
    rw [← Option.some.inj hrun]
    exact hinv
  | cons e evs ih =>
    intro s s3 hinv hrun
    rw [runService] at hrun
    by_cases hen : enabled s e = true
    · rw [if_pos hen] at hrun
      exact ih _ _ (hitInv_step hset hstore hnc hinv hen) hrun
    · rw [if_neg hen] at hrun
      cases hrun


/-- C1: single-flight — for any number of concurrent callers of the same
key on a cold store (formalized: every caller's miss-branch continuation
runs before the generation completes, the `coalesced` premise), any legal
complete schedule invokes the generator exactly once and every caller
receives the identical fresh response. -/
theorem generateParser_single_flight
    (ctx : ServiceCtx) (k code : String) (cs : List CallerTask)
    (st0 : List (String × StoredParser)) (evs : List ServiceEvent)
    (s2 : ServiceState)
    (hn : 2 ≤ cs.length)
    (hcs : ∀ c ∈ cs, c.phase = .ready ∧ c.url ≠ "" ∧ c.html ≠ "" ∧
      generateUrlPattern ctx.miss c.url = k)
    (hk : lookupA st0 k = none)
    (hgen : ctx.gen 0 = .ok code) (hsave : ctx.save 0 = .ok ())
    (hrun : runService ctx (initState cs st0) evs = some s2)
    (hco : coalesced ctx (initState cs st0) evs = true)
    (hfin : allFinished s2 = true) :
    s2.genCount = 1 ∧
    ∀ c ∈ s2.callers, c.phase = .finished (.ok ⟨code, 0, false, k⟩) := by
  obtain ⟨r, hprs, hout, hon, hg, hlen, hall⟩ :=
    batchFinal hk (by omega) hcs hrun hco hfin
  have hr : r = .ok ⟨code, 0, false, k⟩ := by
    rcases hout with ⟨m, h1, -⟩ | ⟨cd, h1, h2, h3, -⟩ | ⟨cd, m, h1, h2, -⟩
    · rw [hgen] at h1
      cases h1
    · rw [hgen] at h1
      have hcd : code = cd := by
        have := Except.ok.inj h1
        exact this
      rw [h3, ← hcd]
    · rw [hsave] at h2
      cases h2
  refine ⟨hg, ?_⟩
  intro c hcm
  obtain ⟨i, hci⟩ := List.getElem?_of_mem hcm
  rw [hall i c hci, hr]

/-- C2: failure propagation — if the generator fails, every coalesced
waiter is rejected with the same (wrapped) failure, nothing is persisted
for the key, the in-flight registration is removed, and a subsequent
post-batch call for the same key runs the miss branch and invokes the
generator a second time. -/
theorem generateParser_failure_propagation
    (ctx : ServiceCtx) (k m : String) (cs : List CallerTask)
    (st0 : List (String × StoredParser)) (evs : List ServiceEvent)
    (s2 : ServiceState) (nc : CallerTask)
    (hn : 1 ≤ cs.length)
    (hcs : ∀ c ∈ cs, c.phase = .ready ∧ c.url ≠ "" ∧ c.html ≠ "" ∧
      generateUrlPattern ctx.miss c.url = k)
    (hk : lookupA st0 k = none)
    (hgen : ctx.gen 0 = .error m)
    (hrun : runService ctx (initState cs st0) evs = some s2)
    (hco : coalesced ctx (initState cs st0) evs = true)
    (hfin : allFinished s2 = true)
    (hnc : nc.phase = .ready ∧ nc.url ≠ "" ∧ nc.html ≠ "" ∧
      generateUrlPattern ctx.miss nc.url = k) :
    (∀ c ∈ s2.callers,
      c.phase = .finished (.error ("Failed to generate parser: " ++ m))) ∧
    lookupA s2.storage k = none ∧
    s2.ongoing = [] ∧
    s2.genCount = 1 ∧
    ∃ s3, runService ctx { s2 with callers := s2.callers ++ [nc] }
        [.callStart s2.callers.length, .getRead s2.callers.length,
          .getCont s2.callers.length] = some s3 ∧
      s3.genCount = 2 := by
  obtain ⟨r, hprs, hout, hon, hg, hlen, hall⟩ :=
    batchFinal hk hn hcs hrun hco hfin
  have hrst : r = .error ("Failed to generate parser: " ++ m) ∧
      s2.storage = st0 := by
    rcases hout with ⟨m2, h1, h2, h3, -⟩ | ⟨cd, h1, -⟩ | ⟨cd, m2, h1, -⟩
    · rw [hgen] at h1
      have hm : m = m2 := Except.error.inj h1
      exact ⟨by rw [h2, ← hm], h3⟩
    · rw [hgen] at h1
      cases h1
    · rw [hgen] at h1
      cases h1
  have hstq : lookupA s2.storage k = none := by rw [hrst.2]; exact hk
  have hoq : lookupA s2.ongoing k = none := by rw [hon]; rfl
  obtain ⟨s3, hrun3, hgc3, -⟩ := fresh_caller_regenerates hnc hstq hoq
  refine ⟨?_, hstq, hon, hg, s3, hrun3, by rw [hgc3, hg]⟩
  intro c hcm
  obtain ⟨i, hci⟩ := List.getElem?_of_mem hcm
  rw [hall i c hci, hrst.1]

/-- C4, amended: a generation error is wrapped exactly once into
`Failed to generate parser: <original message>` and that same wrapped
error value is delivered to every coalesced waiter; the coordinator never
retries internally (exactly one invocation in the whole batch). -/
theorem generationError_wrapped_uniform
    (ctx : ServiceCtx) (k m : String) (cs : List CallerTask)
    (st0 : List (String × StoredParser)) (evs : List ServiceEvent)
    (s2 : ServiceState)
    (hn : 1 ≤ cs.length)
    (hcs : ∀ c ∈ cs, c.phase = .ready ∧ c.url ≠ "" ∧ c.html ≠ "" ∧
      generateUrlPattern ctx.miss c.url = k)
    (hk : lookupA st0 k = none)
    (hgen : ctx.gen 0 = .error m)
    (hrun : runService ctx (initState cs st0) evs = some s2)
    (hco : coalesced ctx (initState cs st0) evs = true)
    (hfin : allFinished s2 = true) :
    (∀ c ∈ s2.callers,
      c.phase = .finished (.error ("Failed to generate parser: " ++ m))) ∧
    s2.genCount = 1 := by
  obtain ⟨r, hprs, hout, hon, hg, hlen, hall⟩ :=
    batchFinal hk hn hcs hrun hco hfin
  have hr : r = .error ("Failed to generate parser: " ++ m) := by
    rcases hout with ⟨m2, h1, h2, -⟩ | ⟨cd, h1, -⟩ | ⟨cd, m2, h1, -⟩
    · rw [hgen] at h1
      have hm : m = m2 := Except.error.inj h1
      rw [h2, ← hm]
    · rw [hgen] at h1
      cases h1
    · rw [hgen] at h1
      cases h1
  refine ⟨?_, hg⟩
  intro c hcm
  obtain ⟨i, hci⟩ := List.getElem?_of_mem hcm
  rw [hall i c hci, hr]

/-- C3, amended: when the generator succeeds but persisting fails, the
whole coalesced request *fails* — every waiter is rejected with the
doubly wrapped storage error (the fresh payload is not returned), and
nothing is persisted, so a later request for the key regenerates. -/
theorem storageFailure_rejects_caller
    (ctx : ServiceCtx) (k code m : String) (cs : List CallerTask)
    (st0 : List (String × StoredParser)) (evs : List ServiceEvent)
    (s2 : ServiceState)
    (hn : 1 ≤ cs.length)
    (hcs : ∀ c ∈ cs, c.phase = .ready ∧ c.url ≠ "" ∧ c.html ≠ "" ∧
      generateUrlPattern ctx.miss c.url = k)
    (hk : lookupA st0 k = none)
    (hgen : ctx.gen 0 = .ok code) (hsave : ctx.save 0 = .error m)
    (hrun : runService ctx (initState cs st0) evs = some s2)
    (hco : coalesced ctx (initState cs st0) evs = true)
    (hfin : allFinished s2 = true) :
    (∀ c ∈ s2.callers, c.phase =
      .finished (.error ("Failed to generate parser: Cannot save parser: " ++ m))) ∧
    lookupA s2.storage k = none := by
  obtain ⟨r, hprs, hout, hon, hg, hlen, hall⟩ :=
    batchFinal hk hn hcs hrun hco hfin
  have hrst : r = .error ("Failed to generate parser: Cannot save parser: " ++ m) ∧
      s2.storage = st0 := by
    rcases hout with ⟨m2, h1, -⟩ | ⟨cd, h1, h2, -⟩ | ⟨cd, m2, h1, h2, h3, h4, -⟩
    · rw [hgen] at h1
      cases h1
    · rw [hsave] at h2
      cases h2
    · rw [hsave] at h2
      have hm : m = m2 := Except.error.inj h2
      exact ⟨by rw [h3, ← hm], h4⟩
  refine ⟨?_, by rw [hrst.2]; exact hk⟩
  intro c hcm
  obtain ⟨i, hci⟩ := List.getElem?_of_mem hcm
  rw [hall i c hci, hrst.1]

/-- C7: cache hit — after one successful `getParser` run for a key, a
second caller whose URL derives the same key finishes with the stored
entry (`cached = true`) and the generator is not invoked again (the
invocation count stays at one). -/
theorem cache_hit_skips_generation
    (ctx : ServiceCtx) (k code : String) (c0 : CallerTask)
    (st0 : List (String × StoredParser)) (evs1 : List ServiceEvent)
    (s2 : ServiceState) (nc : CallerTask) (evs2 : List ServiceEvent)
    (s3 : ServiceState)
    (hc0 : c0.phase = .ready ∧ c0.url ≠ "" ∧ c0.html ≠ "" ∧
      generateUrlPattern ctx.miss c0.url = k)
    (hk : lookupA st0 k = none)
    (hgen : ctx.gen 0 = .ok code) (hsave : ctx.save 0 = .ok ())
    (hrun1 : runService ctx (initState [c0] st0) evs1 = some s2)
    (hco1 : coalesced ctx (initState [c0] st0) evs1 = true)
    (hfin1 : allFinished s2 = true)
    (hnc : nc.phase = .ready ∧ nc.url ≠ "" ∧ nc.html ≠ "" ∧
      generateUrlPattern ctx.miss nc.url = k)
    (hrun2 : runService ctx { s2 with callers := s2.callers ++ [nc] } evs2
      = some s3)
    (hfin2 : allFinished s3 = true) :
    (∃ c, s3.callers[s2.callers.length]? = some c ∧
      c.phase = .finished (.ok ⟨code, 0, true, k⟩)) ∧
    s3.genCount = 1 := by
  obtain ⟨r, hprs, hout, hon, hg, hlen, hall⟩ :=
    batchFinal hk (by simp) (by
      intro c hcm
      rw [List.mem_singleton] at hcm
      rw [hcm]
      exact hc0) hrun1 hco1 hfin1
  have hstq : s2.storage = insertA st0 k ⟨k, code, 0⟩ := by
    rcases hout with ⟨m2, h1, -⟩ | ⟨cd, h1, h2, h3, h4, -⟩ | ⟨cd, m2, h1, h2, -⟩
    · rw [hgen] at h1
      cases h1
    · rw [hgen] at h1
      have hcd : code = cd := Except.ok.inj h1
      rw [h4, ← hcd]
    · rw [hsave] at h2
      cases h2
  have hstore : lookupA s2.storage k = some (⟨k, code, 0⟩ : StoredParser) := by
    rw [hstq]
    exact lookupA_insertA_self st0 k _
  have hset : ∀ pr ∈ s2.promises, ∃ rr, pr = .settled rr := by
    rw [hprs]
    intro pr hpr
    rw [List.mem_singleton] at hpr
    exact ⟨r, hpr⟩
  have hinv0 : HitInv k s2 ⟨k, code, 0⟩ nc
      { s2 with callers := s2.callers ++ [nc] } := by
    refine ⟨rfl, rfl, rfl, rfl, by simp, ?_, nc,
      List.getElem?_concat_length _ _, rfl, rfl, Or.inl hnc.1⟩
    intro i c hi hci
    show ∃ r2, c.phase = .finished r2
    rw [List.getElem?_append] at hci
    by_cases hlt : i < s2.callers.length
    · rw [if_pos hlt] at hci
      exact ⟨r, hall i c hci⟩
    · rw [if_neg hlt] at hci
      obtain ⟨d, hd⟩ : ∃ d, i - s2.callers.length = d + 1 :=
        ⟨i - s2.callers.length - 1, by omega⟩
      rw [hd] at hci
      simp at hci
  have hinv3 := hitInv_run hset hstore ⟨hnc.2.1, hnc.2.2.1, hnc.2.2.2⟩
    evs2 _ s3 hinv0 hrun2
  obtain ⟨-, -, hg3, -, -, -, cn, hcn, -, -, hphn⟩ := hinv3
  rw [allFinished, List.all_eq_true] at hfin2
  have hb := hfin2 cn (memOfGet hcn)
  rcases hphn with h | h | h | h
  · rw [h] at hb
    simp at hb
  · rw [h] at hb
    simp at hb
  · rw [h] at hb
    simp at hb
  · exact ⟨⟨cn, hcn, h⟩, by rw [hg3, hg]⟩



theorem generateParser_single_flight_witness :
    (2 ≤ ([callerX, callerX] : List CallerTask).length) ∧
    lookupA ([] : List (String × StoredParser)) "example.com/x" = none ∧
    coalesced ctxOk (initState [callerX, callerX] []) evsPair = true ∧
    allFinished sPairOk = true ∧
    sPairOk.genCount = 1 ∧
    sPairOk.callers.map (fun c => c.phase) =
      [.finished (.ok ⟨"CODE", 0, false, "example.com/x"⟩),
        .finished (.ok ⟨"CODE", 0, false, "example.com/x"⟩)] :=
  ⟨by decide, by decide, by decide, by decide,
    (generateParser_single_flight ctxOk "example.com/x" "CODE"
      [callerX, callerX] [] evsPair sPairOk (by decide) (by decide) (by decide)
      (by decide) (by decide) (by decide) (by decide) (by decide)).1,
    by decide⟩

theorem generateParser_failure_propagation_witness :
    (1 ≤ ([callerX, callerX] : List CallerTask).length) ∧
    sPairFail.callers.map (fun c => c.phase) =
      [.finished (.error "Failed to generate parser: boom"),
        .finished (.error "Failed to generate parser: boom")] ∧
    (lookupA sPairFail.storage "example.com/x" = none ∧
      sPairFail.ongoing = [] ∧
      sPairFail.genCount = 1 ∧
      ∃ s3, runService ctxGenFail
          { sPairFail with callers := sPairFail.callers ++ [callerX] }
          [.callStart sPairFail.callers.length,
            .getRead sPairFail.callers.length,
            .getCont sPairFail.callers.length] = some s3 ∧
        s3.genCount = 2) :=
  ⟨by decide, by decide,
    (generateParser_failure_propagation ctxGenFail "example.com/x" "boom"
      [callerX, callerX] [] evsPairFail sPairFail callerX (by decide) (by decide)
      (by decide) (by decide) (by decide) (by decide) (by decide) (by decide)).2⟩

/-- C4, counterexample: with a generator failing with message `boom`, the
two coalesced waiters both receive the error `Failed to generate parser:
boom`, which is not the generator's error value `boom` — the error is
wrapped, not propagated verbatim. -/
theorem generationError_not_verbatim_cex :
    runService ctxGenFail initPair evsPairFail = some sPairFail ∧
    sPairFail.genCount = 1 ∧
    sPairFail.callers.map (fun c => c.phase) =
      [.finished (.error "Failed to generate parser: boom"),
        .finished (.error "Failed to generate parser: boom")] ∧
    "Failed to generate parser: boom" ≠ "boom" := by
  exact ⟨by decide, by decide, by decide, by decide⟩

theorem generationError_wrapped_uniform_witness :
    ctxGenFail.gen 0 = .error "boom" ∧
    sPairFail.genCount = 1 ∧
    sPairFail.callers.map (fun c => c.phase) =
      [.finished (.error "Failed to generate parser: boom"),
        .finished (.error "Failed to generate parser: boom")] :=
  ⟨by decide,
    (generationError_wrapped_uniform ctxGenFail "example.com/x" "boom"
      [callerX, callerX] [] evsPairFail sPairFail (by decide) (by decide)
      (by decide) (by decide) (by decide) (by decide) (by decide)).2,
    by decide⟩

/-- C3, counterexample: generator succeeds with payload `CODE`, the store
write fails with `disk full`; the caller's request *fails* with the
wrapped storage error (the fresh payload is not returned) and nothing is
persisted. -/
theorem storageFailure_fails_caller_cex :
    runService ctxSaveFail initSingle evsSingle = some sSingleSave ∧
    sSingleSave.callers.map (fun c => c.phase) =
      [.finished (.error "Failed to generate parser: Cannot save parser: disk full")] ∧
    sSingleSave.callers.map callerSucceeded = [false] ∧
    sSingleSave.storage = [] := by
  exact ⟨by decide, by decide, by decide, by decide⟩

theorem storageFailure_rejects_caller_witness :
    ctxSaveFail.save 0 = .error "disk full" ∧
    lookupA sSingleSave.storage "example.com/x" = none ∧
    sSingleSave.callers.map (fun c => c.phase) =
      [.finished (.error "Failed to generate parser: Cannot save parser: disk full")] :=
  ⟨by decide,
    (storageFailure_rejects_caller ctxSaveFail "example.com/x" "CODE" "disk full"
      [callerX] [] evsSingle sSingleSave (by decide) (by decide) (by decide)
      (by decide) (by decide) (by decide) (by decide) (by decide)).2,
    by decide⟩

theorem cache_hit_skips_generation_witness :
    lookupA ([] : List (String × StoredParser)) "example.com/x" = none ∧
    allFinished sHit = true ∧
    ((∃ c, sHit.callers[sSingleOk.callers.length]? = some c ∧
      c.phase = .finished (.ok ⟨"CODE", 0, true, "example.com/x"⟩)) ∧
    sHit.genCount = 1) :=
  ⟨by decide, by decide,
    cache_hit_skips_generation ctxOk "example.com/x" "CODE" callerX []
      evsSingle sSingleOk callerX evsHit sHit (by decide) (by decide) (by decide)
      (by decide) (by decide) (by decide) (by decide) (by decide) (by decide)
      (by decide)⟩


end ParserGen
